import Mathlib

/-!
Verification of the event-derivation pipeline of the financial-news radar
backend (package `radar`): tokenizer and Jaccard similarity, heuristic
clusterer, LLM clusterer with fallback, scorer and presentation synthesis.

Conventions of the embedding:
* Go `time.Time` values and `time.Duration` are modelled as `Int`
  nanoseconds (`Radar.Time`); `Before`/`After` become `<`/`>`.
* Go `float64` is modelled as `ℚ`; the scoring pipeline only performs
  field arithmetic, `min`/`max`, clamping and one final decimal rounding,
  all of which are exact over `ℚ`.
* Go maps used as sets/dictionaries are modelled as association lists with
  first-match lookup (Go maps have unique keys, so the order of the
  association list is immaterial); where Go iterates over a map and then
  sorts, the model produces the sorted result directly.
* `sort.Slice` is modelled as `List.insertionSort` with the non-strict
  version of the Go comparator.  Go's sort runs plain insertion sort on
  slices shorter than 12 elements, for which the two agree exactly
  (including the order of ties); for longer slices Go's pdqsort may order
  ties differently, which none of the proved properties depend on.
* `uuid.NewString` is modelled by a deterministic counter-based supply;
  no verified property depends on the generated id values.
-/

namespace Radar

/-- Nanoseconds since the Unix epoch (Go `time.Time`), or a `time.Duration`. -/
abbrev Time := Int

/-- One hour in nanoseconds (Go `time.Hour`). -/
def nsPerHour : Int := 3600 * 1000000000

/-- Go `math.Round`: round half away from zero, as an integer result. -/
def goRound (q : ℚ) : ℤ :=
  if q < 0 then -(Int.floor (-q + 1/2)) else Int.floor (q + 1/2)

/-- `roundTo` from scoring.go: `math.Round(v*10^prec) / 10^prec`. -/
def roundTo (v : ℚ) (prec : ℕ) : ℚ :=
  (goRound (v * 10 ^ prec) : ℚ) / 10 ^ prec

/-- `clamp01` from scoring.go. -/
def clamp01 (v : ℚ) : ℚ :=
  if v < 0 then 0 else if 1 < v then 1 else v

/-- Go `strings.ToLower`, restricted to its ASCII action (`Char.toLower`
lowercases exactly the ASCII uppercase range). -/
def toLowerString (s : String) : String :=
  String.mk (s.data.map Char.toLower)

/-- Go `strings.ToUpper`, restricted to its ASCII action. -/
def toUpperString (s : String) : String :=
  String.mk (s.data.map Char.toUpper)

/-- `NewsItem` from models.go. -/
structure NewsItem where
  id : String
  headline : String
  summary : String
  body : String
  source : String
  url : String
  language : String
  publishedAt : Time
  tickers : List String
  entities : List String
  country : String
  category : String
  sentiment : ℚ
  importanceTag : String
  deriving DecidableEq

/-- `ClusterAnnotations` from ingest_source.go (cluster metadata supplied by LLMs). -/
structure ClusterAnnotations where
  summaryEN : String
  summaryRU : String
  whyNowEN : String
  whyNowRU : String
  entities : List String
  tickers : List String
  deriving DecidableEq

/-- `Cluster` from ingest_source.go. -/
structure Cluster where
  id : String
  items : List NewsItem
  primary : NewsItem
  startTime : Time
  endTime : Time
  annotations : Option ClusterAnnotations
  deriving DecidableEq

/-- `SourceRef` from models.go. -/
structure SourceRef where
  title : String
  source : String
  url : String
  published : Time
  deriving DecidableEq

/-- `TimelineEntry` from models.go. -/
structure TimelineEntry where
  label : String
  source : String
  url : String
  timestamp : Time
  deriving DecidableEq

/-- `Draft` from models.go. -/
structure Draft where
  title : String
  lead : String
  bullets : List String
  quote : String
  deriving DecidableEq

/-- `Event` from models.go. -/
structure Event where
  dedupGroup : String
  headline : String
  hotness : ℚ
  whyNow : String
  entities : List String
  tickers : List String
  sources : List SourceRef
  timeline : List TimelineEntry
  draft : Draft
  deriving DecidableEq

/-- The zero `Draft` (Go zero value). -/
def Draft.empty : Draft := ⟨"", "", [], ""⟩

/-- The zero `NewsItem` (Go zero value). -/
def NewsItem.empty : NewsItem :=
  ⟨"", "", "", "", "", "", "", 0, [], [], "", "", 0, ""⟩

/-- The zero `Event` (Go zero value, returned by `buildEvent` for an empty cluster). -/
def Event.empty : Event :=
  ⟨"", "", 0, "", [], [], [], [], Draft.empty⟩

/-! ### Tokenizer and similarity (ingest_source.go) -/

/-- The punctuation characters replaced by spaces in `tokenize`
(the replacer built with `strings.NewReplacer`). -/
def punctChars : List Char :=
  [',', '.', ':', ';', '!', '?', '(', ')', Char.ofNat 39, Char.ofNat 34, '-', '_']

/-- One character step of the `tokenize` replacer. -/
def replaceChar (c : Char) : Char :=
  if punctChars.contains c then ' ' else c

/-- Go `strings.Fields` on a character list: split on whitespace runs,
dropping empty fields.  The accumulator holds the current field reversed. -/
def fieldsAux : List Char → List Char → List (List Char)
  | [], acc => if acc = [] then [] else [acc.reverse]
  | c :: cs, acc =>
      if c.isWhitespace then
        if acc = [] then fieldsAux cs [] else acc.reverse :: fieldsAux cs []
      else fieldsAux cs (c :: acc)

/-- UTF-8 byte length of a character list (Go `len` on a string). -/
def utf8Len (cs : List Char) : ℕ :=
  (cs.map Char.utf8Size).sum

/-- `tokenize` from ingest_source.go: replace punctuation with spaces,
lowercase, split on whitespace, keep tokens whose byte length exceeds 2. -/
def tokenize (s : String) : List String :=
  let normalized := (s.data.map replaceChar).map Char.toLower
  let parts := fieldsAux normalized []
  (parts.filter (fun p => 2 < utf8Len p)).map String.mk

/-- `similarityScore` from ingest_source.go: Jaccard similarity of the two
token sets, with the code's explicit guards for empty token lists and an
empty union. -/
def similarityScore (a b : String) : ℚ :=
  let tokensA := tokenize a
  let tokensB := tokenize b
  if tokensA = [] ∨ tokensB = [] then 0
  else
    let setA := tokensA.toFinset
    let setB := tokensB.toFinset
    let inter := (setA ∩ setB).card
    let union := setA.card + setB.card - inter
    if union = 0 then 0 else (inter : ℚ) / (union : ℚ)

/-! ### Sorting infrastructure

Go byte-wise string comparison (used by `sort.Strings`) agrees with
codepoint-wise lexicographic comparison because UTF-8 is order-preserving;
`charListLE` implements the latter as a boolean function so that every
comparison is kernel-executable. -/

/-- Lexicographic less-or-equal on character lists, by codepoint. -/
def charListLE : List Char → List Char → Bool
  | [], _ => true
  | _ :: _, [] => false
  | a :: as, b :: bs =>
      if a.toNat < b.toNat then true
      else if b.toNat < a.toNat then false
      else charListLE as bs

theorem charListLE_total : ∀ as bs : List Char,
    charListLE as bs = true ∨ charListLE bs as = true := by
  intro as
  induction as with
  | nil => intro bs; left; rfl
  | cons a as ih =>
    intro bs
    cases bs with
    | nil => right; rfl
    | cons b bs =>
      by_cases h₁ : a.toNat < b.toNat
      · left; simp [charListLE, h₁]
      · by_cases h₂ : b.toNat < a.toNat
        · right; simp [charListLE, h₂]
        · rcases ih bs with h | h
          · left; simp [charListLE, h₁, h₂, h]
          · right; simp [charListLE, h₁, h₂, h]

theorem charListLE_trans : ∀ as bs cs : List Char,
    charListLE as bs = true → charListLE bs cs = true →
    charListLE as cs = true := by
  intro as
  induction as with
  | nil => intros; rfl
  | cons a as ih =>
    intro bs cs hab hbc
    cases bs with
    | nil => simp [charListLE] at hab
    | cons b bs =>
      cases cs with
      | nil => simp [charListLE] at hbc
      | cons c cs =>
        simp only [charListLE] at hab hbc ⊢
        split_ifs at hab hbc ⊢ <;> first
          | rfl
          | omega
          | (exact ih bs cs hab hbc)
          | (exact absurd hab (by simp))
          | (exact absurd hbc (by simp))

/-- The string order used to model Go `sort.Strings`. -/
def stringLE (a b : String) : Prop := charListLE a.data b.data = true

instance : DecidableRel stringLE :=
  fun a b => inferInstanceAs (Decidable (_ = true))

instance : IsTotal String stringLE :=
  ⟨fun a b => charListLE_total a.data b.data⟩

instance : IsTrans String stringLE :=
  ⟨fun a b c => charListLE_trans a.data b.data c.data⟩

/-- Go `sort.Strings`. -/
def sortStrings (l : List String) : List String := List.insertionSort stringLE l

/-- Comparator of `sort.Slice` over news items (`PublishedAt.Before`),
in its non-strict form. -/
def itemLE (a b : NewsItem) : Prop := a.publishedAt ≤ b.publishedAt

instance : DecidableRel itemLE :=
  fun a b => inferInstanceAs (Decidable (a.publishedAt ≤ b.publishedAt))

instance : IsTotal NewsItem itemLE := ⟨fun a b => Int.le_total _ _⟩

instance : IsTrans NewsItem itemLE := ⟨fun _ _ _ h₁ h₂ => le_trans h₁ h₂⟩

/-- Go `sort.Slice(items, ...Before...)`. -/
def sortItems (items : List NewsItem) : List NewsItem :=
  List.insertionSort itemLE items

/-- Comparator of `sort.Slice` over source references, non-strict form. -/
def refLE (a b : SourceRef) : Prop := a.published ≤ b.published

instance : DecidableRel refLE :=
  fun a b => inferInstanceAs (Decidable (a.published ≤ b.published))

instance : IsTotal SourceRef refLE := ⟨fun a b => Int.le_total _ _⟩

instance : IsTrans SourceRef refLE := ⟨fun _ _ _ h₁ h₂ => le_trans h₁ h₂⟩

/-- Go `sort.Slice(sources, ...Published.Before...)` (selectQuote). -/
def sortRefs (refs : List SourceRef) : List SourceRef :=
  List.insertionSort refLE refs

/-- Comparator of `sort.Slice` over events (`Hotness >`), non-strict form:
`e` may precede `f` when `f.hotness ≤ e.hotness`. -/
def eventGE (e f : Event) : Prop := f.hotness ≤ e.hotness

instance : DecidableRel eventGE :=
  fun e f => inferInstanceAs (Decidable (f.hotness ≤ e.hotness))

instance : IsTotal Event eventGE := ⟨fun a b => le_total _ _⟩

instance : IsTrans Event eventGE := ⟨fun _ _ _ h₁ h₂ => le_trans h₂ h₁⟩

/-- Go `sort.Slice(events, Hotness >)` in `ScoreClusters`. -/
def sortEvents (events : List Event) : List Event :=
  List.insertionSort eventGE events

/-! ### String helpers (localize.go and draft.go) -/

/-- Go `strings.TrimSpace` on a character list (ASCII whitespace; Go also
trims some further Unicode space characters, which no repository string
contains). -/
def trimChars (cs : List Char) : List Char :=
  ((cs.dropWhile Char.isWhitespace).reverse.dropWhile Char.isWhitespace).reverse

/-- Go `strings.TrimSpace`. -/
def trimString (s : String) : String := String.mk (trimChars s.data)

/-- `bilingual` from localize.go. -/
def bilingual (en ru : String) : String :=
  let en := trimString en
  let ru := trimString ru
  if en = "" then ru
  else if ru = "" then en
  else en ++ " / " ++ ru

/-- Go `strings.Join`. -/
def joinSep (sep : String) : List String → String
  | [] => ""
  | [x] => x
  | x :: xs => x ++ sep ++ joinSep sep xs

/-- `truncate` from draft.go: rune-accurate prefix with trimming and an
appended ellipsis. -/
def truncate (text : String) (maxRunes : ℕ) : String :=
  let t := trimString text
  if t.data.length ≤ maxRunes then t
  else trimString (String.mk (t.data.take maxRunes)) ++ "…"

/-! ### Scorer (scoring.go) -/

/-- `Scorer` from scoring.go.  The Go maps are modelled as association
lists; Go map keys are unique, so lookup order is immaterial. -/
structure Scorer where
  sourceWeights : List (String × ℚ)
  tagWeights : List (String × ℚ)

/-- Go map lookup `m[k]` with its `ok` flag. -/
def lookupWeight (m : List (String × ℚ)) (k : String) : Option ℚ :=
  (m.find? (fun p => p.1 == k)).map (·.2)

/-- `normalizeEntity` from scoring.go. -/
def normalizeEntity (entity : String) : String :=
  trimString (toLowerString entity)

/-- One step of the first-seen deduplication pattern of the
ticker/entity loops in `buildEvent`: append `x` unless a previous element
carries the same key (the Go code keeps a set of the keys seen so far). -/
def dedupStep (key : String → String) (acc : List String) (x : String) : List String :=
  if acc.any (fun y => key y == key x) then acc else acc ++ [x]

/-- First-seen deduplication keyed by `key` (the ticker loop uses the
identity key on uppercased tickers, the entity loop `normalizeEntity`). -/
def dedupByKey (key : String → String) (l : List String) : List String :=
  l.foldl (dedupStep key) []

/-- The weight one item contributes in `averageSourceWeight`: the
configured weight of its lowercased source, or the 0.5 default. -/
def sourceWeightOf (s : Scorer) (item : NewsItem) : ℚ :=
  match lookupWeight s.sourceWeights (toLowerString item.source) with
  | some w => w
  | none => 1/2

/-- `averageSourceWeight` from scoring.go. -/
def averageSourceWeight (s : Scorer) (items : List NewsItem) : ℚ :=
  if items = [] then 3/10
  else
    let total := items.foldl (fun acc item => acc + sourceWeightOf s item) 0
    min 1 (total / (items.length : ℚ))

/-- `tagWeight` from scoring.go. -/
def tagWeight (s : Scorer) (items : List NewsItem) : ℚ :=
  let best := items.foldl (fun best item =>
    match lookupWeight s.tagWeights item.importanceTag with
    | some w => if best < w then w else best
    | none => best) 0
  if best = 0 then 9/20 else best

/-- `composeWhyNow` from scoring.go. -/
def composeWhyNow (coverage reach velocity sourceScore : ℚ) : String :=
  let notes :=
    (if 1 < coverage then
      [bilingual ("multiple confirmations") ("несколько подтверждений")] else []) ++
    (if 2 ≤ reach then
      [bilingual ("broad asset impact") ("широкое влияние на активы")] else []) ++
    (if 8/10 < velocity then
      [bilingual ("fast-moving timeline") ("быстро развивающийся таймлайн")] else []) ++
    (if 7/10 < sourceScore then
      [bilingual ("high-credibility sources") ("источники с высоким доверием")] else [])
  let notes :=
    if notes = [] then [bilingual ("fresh development") ("свежее развитие событий")]
    else notes
  joinSep ("; ") notes

/-- `weightedSum` from scoring.go; the arguments correspond to the map
keys coverage, velocity, credibility, sentiment, tag, breadth, novelty. -/
def weightedSum (coverage velocity credibility sentiment tag breadth novelty : ℚ) : ℚ :=
  clamp01 (coverage * (18/100) + velocity * (18/100) + credibility * (15/100) +
    sentiment * (12/100) + tag * (18/100) + breadth * (12/100) + novelty * (7/100))

/-- `selectQuote` from draft.go.  In Go the sort happens in place on the
shared slice; the model sorts functionally and `buildEvent` below uses the
sorted list for the event's Sources field to reflect that aliasing. -/
def selectQuote (sources : List SourceRef) : String :=
  match sortRefs sources with
  | [] => ""
  | s :: _ => s.source ++ " — " ++ s.title

/-- `buildDraft` from draft.go. -/
def buildDraft (cluster : Cluster) (entities tickers : List String)
    (sources : List SourceRef) (whyNow : String) : Draft :=
  let primary := cluster.primary
  let bullets :=
    (if entities ≠ [] then
      [bilingual ("Impacts") ("Влияние") ++ ": " ++ joinSep (", ") entities] else []) ++
    (if tickers ≠ [] then
      [bilingual ("Tickers in focus") ("Ключевые тикеры") ++ ": " ++ joinSep (", ") tickers] else []) ++
    [bilingual ("Why now") ("Почему сейчас") ++ ": " ++ whyNow]
  let quote := selectQuote sources
  let lead0 := primary.summary
  let lead1 := if trimString lead0 = "" then truncate primary.body 240 else lead0
  let lead :=
    match cluster.annotations with
    | none => lead1
    | some ann =>
        let llmLead := bilingual ann.summaryEN ann.summaryRU
        if trimString llmLead ≠ "" then llmLead else lead1
  { title := primary.headline, lead := lead, bullets := bullets, quote := quote }

/-- The label a timeline entry receives in the first loop of
`buildTimeline` (timeline.go). -/
def timelineBase (n idx : ℕ) (item : NewsItem) : TimelineEntry :=
  let label :=
    if idx = 0 then bilingual ("Initial") ("Старт")
    else if idx = n - 1 then bilingual ("Latest") ("Финал")
    else bilingual ("Update") ("Обновление")
  ⟨label, item.source, item.url, item.publishedAt⟩

/-- `buildTimeline` from timeline.go: sort ascending, label first/last,
then renumber the middle entries when there are at least three. -/
def buildTimeline (cluster : Cluster) : List TimelineEntry :=
  if cluster.items = [] then [] else
  let items := sortItems cluster.items
  let n := items.length
  let timeline := items.enum.map (fun p => timelineBase n p.1 p.2)
  if 3 ≤ n then
    timeline.enum.map (fun p =>
      if 1 ≤ p.1 ∧ p.1 < n - 1 then
        { p.2 with label := bilingual ("Update " ++ toString p.1)
                              ("Обновление " ++ toString p.1) }
      else p.2)
  else timeline

/-- The source reference `buildEvent` creates for one item. -/
def itemRef (item : NewsItem) : SourceRef :=
  ⟨item.headline, item.source, item.url, item.publishedAt⟩

/-! The Go loop in `buildEvent` accumulates sources, deduplicated
tickers/entities, sentiment totals and the time extremes in one pass; the
accumulators are independent, so the model computes each one by a named
definition. -/

/-- The deduplicated, uppercased, sorted ticker list of `buildEvent`. -/
def eventTickers (items : List NewsItem) : List String :=
  sortStrings (dedupByKey (fun t => t) ((items.flatMap (·.tickers)).map toUpperString))

/-- The deduplicated (case-insensitively), sorted entity list of `buildEvent`. -/
def eventEntities (items : List NewsItem) : List String :=
  sortStrings (dedupByKey normalizeEntity (items.flatMap (·.entities)))

/-- The `earliest` accumulator of `buildEvent`: fold from `items[0]`. -/
def eventEarliest (items : List NewsItem) : Time :=
  items.foldl (fun e it => if it.publishedAt < e then it.publishedAt else e)
    (items.headD NewsItem.empty).publishedAt

/-- The `latest` accumulator of `buildEvent`: fold from `items[0]`. -/
def eventLatest (items : List NewsItem) : Time :=
  items.foldl (fun e it => if e < it.publishedAt then it.publishedAt else e)
    (items.headD NewsItem.empty).publishedAt

/-- The `novelty` metric of `buildEvent`. -/
def eventNovelty (items : List NewsItem) : ℚ :=
  if 1 < (items.length : ℚ) then
    1 - min (6/10) (((items.length : ℚ) - 1) * (12/100))
  else 1

/-- The `velocity` metric of `buildEvent`. -/
def eventVelocity (items : List NewsItem) : ℚ :=
  let window := eventLatest items - eventEarliest items
  if 0 < window then
    max (2/10) (min 1 (6 / (((window : ℚ) / (nsPerHour : ℚ)) + 1)))
  else 1

/-- The `sentimentScore` metric of `buildEvent`. -/
def eventSentimentScore (items : List NewsItem) : ℚ :=
  let totalSentiment := (items.map (fun it => |it.sentiment|)).sum
  let negativeCount := (items.filter (fun it => decide (it.sentiment < 0))).length
  let base := min 1 (totalSentiment / (items.length : ℚ))
  if 0 < negativeCount ∧ negativeCount = items.length then
    min 1 (base + 15/100)
  else base

/-- The `hotness` value of `buildEvent` before rounding: the weighted sum
of the seven metrics exactly as scoring.go computes them. -/
def eventHotness (s : Scorer) (items : List NewsItem) : ℚ :=
  weightedSum (min 1 ((items.length : ℚ) / 4)) (eventVelocity items)
    (averageSourceWeight s items) (eventSentimentScore items) (tagWeight s items)
    (6/10 * min 1 (((eventTickers items).length : ℚ) / 4) +
      4/10 * min 1 (((eventEntities items).length : ℚ) / 6))
    (eventNovelty items)

/-- `buildEvent` from scoring.go.  `selectQuote` sorts the shared sources
slice in place (the Go slices alias one backing array), so the event's
Sources field is the sorted list. -/
def buildEvent (s : Scorer) (cluster : Cluster) : Event :=
  if cluster.items = [] then Event.empty else
  let items := cluster.items
  let rawSources := items.map itemRef
  let tickers := eventTickers items
  let entities := eventEntities items
  let velocity := eventVelocity items
  let sourceScore := averageSourceWeight s items
  let whyNow0 :=
    composeWhyNow (items.length : ℚ) (tickers.length : ℚ) velocity sourceScore
  let whyNow :=
    match cluster.annotations with
    | none => whyNow0
    | some ann =>
        let llmWhy := bilingual ann.whyNowEN ann.whyNowRU
        if trimString llmWhy ≠ "" then
          (if trimString whyNow0 ≠ "" then llmWhy ++ " | " ++ whyNow0 else llmWhy)
        else whyNow0
  let draft := buildDraft cluster entities tickers rawSources whyNow
  let timeline := buildTimeline cluster
  { dedupGroup := cluster.id
    headline := cluster.primary.headline
    hotness := roundTo (eventHotness s items) 3
    whyNow := whyNow
    entities := entities
    tickers := tickers
    sources := sortRefs rawSources
    timeline := timeline
    draft := draft }

/-- `ScoreClusters` from scoring.go. -/
def scoreClusters (s : Scorer) (clusters : List Cluster) : List Event :=
  if clusters = [] then [] else
  let events := (clusters.map (buildEvent s)).filter (fun e => decide (0 < e.hotness))
  sortEvents events

/-! ### Section 4.7 of the spec, rendered from its words

These definitions follow the sentences of spec §4.7 (not the code); they
exist to compare the code's scoring against the spec's description. -/

/-- §4.7: `sourceScore`: mean of per-item source weights (default 0.5 for
unknown source, lookup case-insensitive); clamped to [0,1]; 0.3 if zero
items. -/
def specSourceScore (s : Scorer) (items : List NewsItem) : ℚ :=
  if items = [] then 3/10
  else clamp01 ((items.map (sourceWeightOf s)).sum / (items.length : ℚ))

/-- §4.7: `tagScore`: maximum configured weight among items' importance
tags; 0.45 if none match. -/
def specTagScore (s : Scorer) (items : List NewsItem) : ℚ :=
  match items.filterMap (fun it => lookupWeight s.tagWeights it.importanceTag) with
  | [] => 9/20
  | w :: ws => ws.foldl max w

/-- §3 / §4.7: cluster start = min of the members' timestamps. -/
def specStart (items : List NewsItem) : Time :=
  match items with
  | [] => 0
  | x :: xs => xs.foldl (fun e it => min e it.publishedAt) x.publishedAt

/-- §3 / §4.7: cluster end = max of the members' timestamps. -/
def specEnd (items : List NewsItem) : Time :=
  match items with
  | [] => 0
  | x :: xs => xs.foldl (fun e it => max e it.publishedAt) x.publishedAt

/-- §4.7: `novelty = 1` if coverage ≤ 1, else `1 − min(0.6, (coverage−1)·0.12)`. -/
def specNovelty (items : List NewsItem) : ℚ :=
  if (items.length : ℚ) ≤ 1 then 1
  else 1 - min (6/10) (((items.length : ℚ) - 1) * (12/100))

/-- §4.7: `velocity`: `h = hours(end − start)`; if `h = 0` → 1; else
`max(0.2, min(1, 6/(h+1)))`. -/
def specVelocity (items : List NewsItem) : ℚ :=
  let h : ℚ := ((specEnd items - specStart items : ℤ) : ℚ) / (nsPerHour : ℚ)
  if h = 0 then 1 else max (2/10) (min 1 (6 / (h + 1)))

/-- §4.7: `sentimentScore = min(1, mean(|item.sentiment|))`; if every item
has negative sentiment, add 0.15 then clamp. -/
def specSentimentScore (items : List NewsItem) : ℚ :=
  let base := min 1 ((items.map (fun it => |it.sentiment|)).sum / (items.length : ℚ))
  if items.all (fun it => decide (it.sentiment < 0)) then min 1 (base + 15/100)
  else base

/-- §4.7: `reach = |unique tickers|` (uppercased). -/
def specReach (items : List NewsItem) : ℕ :=
  ((items.flatMap (·.tickers)).map toUpperString).toFinset.card

/-- §3: the deduplicated (case-insensitive) entity count of the cluster. -/
def specEntityCount (items : List NewsItem) : ℕ :=
  ((items.flatMap (·.entities)).map normalizeEntity).toFinset.card

/-- §4.7: the hotness formula as the spec words it:
`0.18·coverageNorm + 0.18·velocity + 0.15·credibility + 0.12·sentiment +
0.18·tag + 0.12·breadthCombined + 0.07·novelty`, clamped, with
`coverageNorm = min(1, coverage/4)`, rounded to 3 decimals. -/
def specHotness (s : Scorer) (items : List NewsItem) : ℚ :=
  let coverageNorm := min 1 ((items.length : ℚ) / 4)
  let breadthScore := min 1 ((specReach items : ℚ) / 4)
  let extentScore := min 1 ((specEntityCount items : ℚ) / 6)
  let breadthCombined := 6/10 * breadthScore + 4/10 * extentScore
  roundTo (clamp01 ((18/100) * coverageNorm + (18/100) * specVelocity items +
    (15/100) * specSourceScore s items + (12/100) * specSentimentScore items +
    (18/100) * specTagScore s items + (12/100) * breadthCombined +
    (7/100) * specNovelty items)) 3

/-! ### Heuristic clusterer (ingest_source.go) -/

/-- `HeuristicClusterer` from ingest_source.go (`MaxClusterSize` is a Go
`int`, hence `ℤ`). -/
structure HeuristicClusterer where
  timeWindow : Time
  similarityThreshold : ℚ
  maxClusterSize : ℤ

/-- `NewHeuristicClusterer` from ingest_source.go: defaults for unset
fields, `MaxClusterSize` fixed at 12. -/
def NewHeuristicClusterer (timeWindow : Time) (threshold : ℚ) : HeuristicClusterer :=
  { timeWindow := if timeWindow = 0 then 6 * nsPerHour else timeWindow
    similarityThreshold := if threshold ≤ 0 ∨ 1 < threshold then 45/100 else threshold
    maxClusterSize := 12 }

/-- `withinWindow` from ingest_source.go (`finish` is the Go `end`). -/
def withinWindow (start finish ts window : Time) : Bool :=
  if ts < start - window then false
  else if finish + window < ts then false
  else true

/-- `sharesToken` from ingest_source.go: case-insensitive non-empty
intersection (the Go code builds a set of the uppercased first list and
probes it with the uppercased second). -/
def sharesToken (a b : List String) : Bool :=
  if a = [] ∨ b = [] then false
  else b.any (fun v => a.any (fun w => toUpperString w == toUpperString v))

/-- `areRelated` from ingest_source.go. -/
def areRelated (a b : NewsItem) (threshold : ℚ) : Bool :=
  if sharesToken a.tickers b.tickers || sharesToken a.entities b.entities then true
  else decide (threshold ≤ similarityScore a.headline b.headline)

/-- `clusterContainsRelated` from ingest_source.go. -/
def clusterContainsRelated (cluster : Cluster) (candidate : NewsItem)
    (threshold : ℚ) : Bool :=
  cluster.items.any (fun existing => areRelated existing candidate threshold)

/-- The in-place update of a cluster when `BuildClusters` assigns an item:
append, extend start/end, and replace the primary by a strictly earlier
item. -/
def addToCluster (cluster : Cluster) (item : NewsItem) : Cluster :=
  { cluster with
      items := cluster.items ++ [item]
      startTime :=
        if item.publishedAt < cluster.startTime then item.publishedAt
        else cluster.startTime
      endTime :=
        if cluster.endTime < item.publishedAt then item.publishedAt
        else cluster.endTime
      primary :=
        if item.publishedAt < cluster.primary.publishedAt then item
        else cluster.primary }

/-- The scan over existing clusters in creation order (the inner loop of
`BuildClusters`): the item joins the first cluster that has room, lies
within ±TimeWindow of its interval and contains a related member. -/
def tryAssign (c : HeuristicClusterer) (item : NewsItem) :
    List Cluster → Option (List Cluster)
  | [] => none
  | cl :: rest =>
      if (cl.items.length : ℤ) < c.maxClusterSize ∧
          withinWindow cl.startTime cl.endTime item.publishedAt c.timeWindow = true ∧
          clusterContainsRelated cl item c.similarityThreshold = true then
        some (addToCluster cl item :: rest)
      else (tryAssign c item rest).map (cl :: ·)

/-- A fresh singleton cluster (`uuid.NewString` is modelled by a
counter-based id supply; no verified property depends on the id values). -/
def newCluster (id : String) (item : NewsItem) : Cluster :=
  ⟨id, [item], item, item.publishedAt, item.publishedAt, none⟩

/-- One iteration of the `BuildClusters` loop: assign to the first
matching cluster or open a new cluster at the end of the list. -/
def buildStep (c : HeuristicClusterer) (st : List Cluster × ℕ) (item : NewsItem) :
    List Cluster × ℕ :=
  match tryAssign c item st.1 with
  | some cs => (cs, st.2)
  | none => (st.1 ++ [newCluster (("c") ++ toString st.2) item], st.2 + 1)

/-- `HeuristicClusterer.BuildClusters` from ingest_source.go: sort the
input ascending by timestamp, then greedily assign each item. -/
def BuildClusters (c : HeuristicClusterer) (items : List NewsItem) : List Cluster :=
  if items = [] then [] else
  ((sortItems items).foldl (buildStep c) ([], 0)).1

/-- All items of a cluster list, in cluster order. -/
def clustersItems (clusters : List Cluster) : List NewsItem :=
  (clusters.map (·.items)).flatten

/-! ### LLM clusterer (llm_clusterer.go) -/

/-- One chat choice (package llm); the clusterer reads only
`message.content` of the first choice. -/
structure Choice where
  content : String
  deriving DecidableEq

/-- The JSON object shape `parseResponse` decodes a declared cluster
into. -/
structure DeclaredCluster where
  id : String
  newsIds : List String
  primaryNewsId : String
  summaryEN : String
  summaryRU : String
  whyNowEN : String
  whyNowRU : String
  entities : List String
  tickers : List String
  deriving DecidableEq

/-- The decoded top-level payload (`{clusters: [...]}`). -/
structure DecodedPayload where
  clusters : List DeclaredCluster
  deriving DecidableEq

/-- The error causes of the LLM path, one per Go early return:
nil client / empty model, client error, zero choices, no JSON object in
the content, JSON decode failure, zero declared clusters, zero clusters
after reconciliation, and a failed fallback wrapping both causes. -/
inductive LLMError where
  | misconfigured
  | clientError
  | missingChoices
  | missingJSON
  | decodeError
  | noClustersDeclared
  | noClusters
  | fallbackFailed (fb orig : LLMError)
  deriving DecidableEq

/-- `LLMClusterer` from llm_clusterer.go.  `client` models the Go
ChatClient as a deterministic function of the prompt's item list (the
request is determined by the sorted, truncated items together with the
fixed model/temperature/maxTokens fields); `none` is a nil client.
`decode` models `encoding/json.Unmarshal` of the extracted payload — the
Go standard library, external to the repository — so theorems quantify
over it. -/
structure LLMClusterer where
  client : Option (List NewsItem → Option (List Choice))
  model : String
  temperature : ℚ
  maxTokens : ℤ
  maxItems : ℤ
  fallback : Option (List NewsItem → Except LLMError (List Cluster))
  decode : String → Option DecodedPayload

/-- The opening curly bracket. -/
def lbrace : Char := Char.ofNat 123

/-- The closing curly bracket. -/
def rbrace : Char := Char.ofNat 125

/-- `extractJSON` from llm_clusterer.go: the substring from the first
opening to the last closing curly bracket, or empty when absent or
inverted.  (Both brackets are ASCII, so Go's byte indices cut at the same
points as character indices.) -/
def extractJSON (content : String) : String :=
  let cs := content.data
  match cs.findIdx? (fun c => c = lbrace), cs.reverse.findIdx? (fun c => c = rbrace) with
  | some s, some rk =>
      let e := cs.length - 1 - rk
      if e ≤ s then "" else String.mk ((cs.drop s).take (e + 1 - s))
  | _, _ => ""

/-- The `itemByID` Go map of `parseResponse`: built by insertion in input
order, so later items overwrite earlier ones with the same id. -/
def itemByID (items : List NewsItem) (id : String) : Option NewsItem :=
  items.reverse.find? (fun it => it.id == id)

/-- `preferID` from llm_clusterer.go. -/
def preferID (candidate fallback : String) : String :=
  if trimString candidate ≠ "" then trimString candidate else fallback

/-- `collectStrings` from llm_clusterer.go: the set of trimmed non-empty
values, sorted (the Go map iteration order is immaterial after
`sort.Strings`). -/
def collectStrings (items : List NewsItem) (sel : NewsItem → List String) :
    List String :=
  sortStrings (dedupByKey (fun v => v)
    (((items.flatMap sel).map trimString).filter (fun v => !(v == ""))))

/-- The summary backfill of `parseResponse`: copy the LLM `summary_en`
onto the primary when the primary's summary is empty. -/
def backfillSummary (d : DeclaredCluster) (primary : NewsItem) : NewsItem :=
  if d.summaryEN ≠ "" ∧ primary.summary = "" then
    { primary with summary := d.summaryEN }
  else primary

/-- One declared cluster of `parseResponse`: resolve `news_ids` against
the input (silently dropping unknown ids), drop the cluster if empty,
pick the primary (the declared one when known, else the FIRST resolved
member in `news_ids` order — chosen before the sort), sort members by
timestamp, take start/end from the ends, backfill entities/tickers and
attach the LLM annotation bundle. -/
def reconcileOne (d : DeclaredCluster) (items : List NewsItem) : Option Cluster :=
  let clusterItems := d.newsIds.filterMap (itemByID items)
  match clusterItems with
  | [] => none
  | first :: _ =>
      let primary0 :=
        if d.primaryNewsId ≠ "" then
          match itemByID items d.primaryNewsId with
          | some candidate => candidate
          | none => first
        else first
      let sorted := sortItems clusterItems
      let entities :=
        if d.entities = [] then collectStrings sorted (·.entities) else d.entities
      let tickers :=
        if d.tickers = [] then collectStrings sorted (·.tickers) else d.tickers
      let primary := backfillSummary d primary0
      some { id := preferID d.id primary.id
             items := sorted
             primary := primary
             startTime := (sorted.headD first).publishedAt
             endTime := (sorted.getLastD first).publishedAt
             annotations := some ⟨d.summaryEN, d.summaryRU, d.whyNowEN, d.whyNowRU,
               entities, tickers⟩ }

/-- `parseResponse` from llm_clusterer.go: extract the JSON substring,
decode it, fail on zero declared clusters, then reconcile each declared
cluster. -/
def parseResponse (decode : String → Option DecodedPayload) (content : String)
    (items : List NewsItem) : Except LLMError (List Cluster) :=
  let payload := extractJSON content
  if payload = "" then .error .missingJSON
  else match decode payload with
    | none => .error .decodeError
    | some d =>
        if d.clusters = [] then .error .noClustersDeclared
        else .ok (d.clusters.filterMap (fun dc => reconcileOne dc items))

/-- The `maxItems` truncation of `BuildClusters` (preserving input
order). -/
def limitItems (c : LLMClusterer) (items : List NewsItem) : List NewsItem :=
  if 0 < c.maxItems ∧ c.maxItems < (items.length : ℤ) then
    items.take c.maxItems.toNat
  else items

/-- The pure LLM path of `BuildClusters`: call the client on the sorted
truncated view, take the first choice, parse against the FULL input list,
and reject an empty cluster list.  Each constructor of the error matches
one Go early return's cause.  (`buildPrompt`'s JSON marshalling of plain
structs cannot fail and is not modelled.) -/
def llmDerive (c : LLMClusterer) (f : List NewsItem → Option (List Choice))
    (items : List NewsItem) : Except LLMError (List Cluster) :=
  match f (sortItems (limitItems c items)) with
  | none => .error .clientError
  | some [] => .error .missingChoices
  | some (choice :: _) =>
      match parseResponse c.decode choice.content items with
      | .error e => .error e
      | .ok [] => .error .noClusters
      | .ok clusters => .ok clusters

/-- `buildWithFallback` from llm_clusterer.go: delegate to the fallback
engine; wrap both causes when it also fails; with no fallback return the
original cause. -/
def buildWithFallback (c : LLMClusterer) (items : List NewsItem)
    (cause : LLMError) : Except LLMError (List Cluster) :=
  match c.fallback with
  | some fb =>
      match fb items with
      | .ok clusters => .ok clusters
      | .error fbErr => .error (.fallbackFailed fbErr cause)
  | none => .error cause

/-- `LLMClusterer.BuildClusters` from llm_clusterer.go (the version under
src/, which has no cache). -/
def BuildClustersLLM (c : LLMClusterer) (items : List NewsItem) :
    Except LLMError (List Cluster) :=
  if items = [] then .ok []
  else match c.client with
    | none => buildWithFallback c items .misconfigured
    | some f =>
        if c.model = "" then buildWithFallback c items .misconfigured
        else match llmDerive c f items with
          | .error cause => buildWithFallback c items cause
          | .ok clusters => .ok clusters

/-- The primary item the parser's rules select for a declared cluster:
the declared `primary_news_id` when non-empty and known, otherwise the
first resolved member in `news_ids` order; `none` when no id resolves. -/
def declaredPrimary (d : DeclaredCluster) (items : List NewsItem) : Option NewsItem :=
  match d.newsIds.filterMap (itemByID items) with
  | [] => none
  | first :: _ =>
      some (if d.primaryNewsId ≠ "" then
        match itemByID items d.primaryNewsId with
        | some candidate => candidate
        | none => first
      else first)

/-! ### Signature cache (modelled from the spec)

The repository's own main.go and llm_clusterer_test.go construct
`LLMClusterer` with a `CacheTTL` field and the test
`TestLLMClustererCachesBySignature` asserts one upstream call for two
identical inputs, but the `LLMClusterer` in src/ has no cache fields: the
cached variant of the clusterer is code of this repository that is not
under src/.  The definitions below are therefore modelled from spec §4.6. -/

/-- Modelled from the spec: one cache entry of the §4.6 mapping
`signature → (clusters, expiresAt)`. -/
structure CacheEntry where
  clusters : List Cluster
  expiresAt : Time
  deriving DecidableEq

/-- Modelled from the spec: the process-local cache state. -/
abbrev CacheState := List (String × CacheEntry)

/-- Modelled from the spec: §4.6 signature — the ordered concatenation of
`(id, url, unix-timestamp)` triples over the sorted input plus the model
name. -/
def cacheSignature (items : List NewsItem) (model : String) : String :=
  (items.foldl (fun acc it =>
    acc ++ it.id ++ ("|") ++ it.url ++ ("|") ++ toString it.publishedAt ++ (";"))
    ("")) ++ model

/-- Modelled from the spec: lookup serving a hit while `now < expiresAt`,
with opportunistic eviction of expired entries. -/
def cacheLookup (st : CacheState) (sig : String) (now : Time) :
    Option (List Cluster) × CacheState :=
  let live := st.filter (fun e => decide (now < e.2.expiresAt))
  ((live.find? (fun e => e.1 == sig)).map (fun e => e.2.clusters), live)

/-- Modelled from the spec: insert (replacing any entry of the same
signature) with the given expiry. -/
def cacheInsert (st : CacheState) (sig : String) (clusters : List Cluster)
    (expiry : Time) : CacheState :=
  (st.filter (fun e => !(e.1 == sig))) ++ [(sig, ⟨clusters, expiry⟩)]

/-- The cached clusterer: the src/ `LLMClusterer` plus the `CacheTTL`
field its callers and tests set.  Modelled from the spec. -/
structure CachedLLMClusterer where
  core : LLMClusterer
  cacheTTL : Time

/-- One cached `BuildClusters` call's outcome: result, new cache state,
and the number of upstream `ChatCompletion` calls performed. -/
structure LLMRunResult where
  result : Except LLMError (List Cluster)
  cache : CacheState
  upstreamCalls : ℕ

/-- Modelled from the spec: §4.6 `BuildClusters` with the signature
cache.  Empty input returns no clusters; misconfiguration falls back;
otherwise truncate, sort, compute the signature, serve a live hit with no
upstream call, else perform the LLM derivation (one upstream call),
inserting into the cache only on success with expiry `now + CacheTTL`. -/
def BuildClustersCached (c : CachedLLMClusterer) (st : CacheState) (now : Time)
    (items : List NewsItem) : LLMRunResult :=
  if items = [] then ⟨.ok [], st, 0⟩
  else match c.core.client with
    | none => ⟨buildWithFallback c.core items .misconfigured, st, 0⟩
    | some f =>
        if c.core.model = "" then ⟨buildWithFallback c.core items .misconfigured, st, 0⟩
        else
          let sig := cacheSignature (sortItems (limitItems c.core items)) c.core.model
          match cacheLookup st sig now with
          | (some clusters, live) => ⟨.ok clusters, live, 0⟩
          | (none, live) =>
              match llmDerive c.core f items with
              | .error cause => ⟨buildWithFallback c.core items cause, live, 1⟩
              | .ok clusters =>
                  ⟨.ok clusters, cacheInsert live sig clusters (now + c.cacheTTL), 1⟩

/-! ### Concrete fixtures used by witnesses and counterexamples -/

/-- A scorer with one negative configured source weight. -/
def negScorer : Scorer := ⟨[(("x"), -8)], []⟩

/-- A minimal item published by the negatively-weighted source. -/
def negItem : NewsItem :=
  { NewsItem.empty with id := ("n1"), headline := ("h"), source := ("x"), url := ("u") }

/-- A singleton cluster of `negItem`. -/
def negCluster : Cluster := ⟨("c1"), [negItem], negItem, 0, 0, none⟩

/-- A scorer with nonnegative source weights and positive tag weights
(the shape of the repository's default weight tables; integer-valued so
that the weights are kernel-comparable). -/
def wScorer : Scorer :=
  ⟨[(("reuters"), 1), (("bloomberg"), 1)], [(("macro_policy"), 1)]⟩

/-- A concrete item for witnesses. -/
def wItem : NewsItem :=
  { NewsItem.empty with
      id := ("n1"), headline := ("Company A cuts guidance"), source := ("Reuters"),
      url := ("u1"), publishedAt := 0, tickers := [("cma"), ("CMA")],
      entities := [("beta"), ("Alpha")], sentiment := -1/2 }

/-- A second concrete item, two hours later. -/
def wItem2 : NewsItem :=
  { NewsItem.empty with
      id := ("n2"), headline := ("Factory fire hits Company A supplier"),
      source := ("Bloomberg"), url := ("u2"), publishedAt := 7200 * 1000000000,
      tickers := [("CMA")], entities := [("Company A")], sentiment := 1/4 }

/-- A singleton witness cluster. -/
def wCluster : Cluster := ⟨("c1"), [wItem], wItem, 0, 0, none⟩

/-- A two-item witness cluster. -/
def wCluster2 : Cluster := ⟨("c2"), [wItem, wItem2], wItem, 0, 7200 * 1000000000, none⟩

/-- A cluster with id `b` over the witness item. -/
def tieClusterB : Cluster := ⟨("b"), [wItem], wItem, 0, 0, none⟩

/-- A cluster with id `a` over the witness item (same content as
`tieClusterB`, so the two events tie on hotness). -/
def tieClusterA : Cluster := ⟨("a"), [wItem], wItem, 0, 0, none⟩

/-- The output ordering claimed for `ScoreClusters`: strictly hotter
first, ties broken by dedup-group id ascending. -/
def claimedEventOrder (e f : Event) : Prop :=
  f.hotness < e.hotness ∨ (e.hotness = f.hotness ∧ stringLE e.dedupGroup f.dedupGroup)

/-- An item with only kernel-comparable fields. -/
def pItem1 : NewsItem :=
  { NewsItem.empty with
      id := ("n1"), headline := ("First"), url := ("u1"), publishedAt := 0 }

/-- A later item with only kernel-comparable fields. -/
def pItem2 : NewsItem :=
  { NewsItem.empty with
      id := ("n2"), headline := ("Second"), url := ("u2"),
      publishedAt := 7200 * 1000000000 }

/-- A declared cluster listing `n2` before `n1`, with no declared
primary. -/
def dWitness : DeclaredCluster :=
  ⟨("ev1"), [("n2"), ("n1")], (""), ("s_en"), (""), (""), (""), [], []⟩

/-- The cluster the parser produces for `dWitness`. -/
def clWitness : Cluster :=
  (reconcileOne dWitness [pItem1, pItem2]).getD ⟨(""), [], NewsItem.empty, 0, 0, none⟩

/-- A chat client that always errors. -/
def failClient : List NewsItem → Option (List Choice) := fun _ => none

/-- A fallback engine returning one fixed cluster. -/
def okFallback : List NewsItem → Except LLMError (List Cluster) :=
  fun _ => .ok [⟨("fb"), [pItem1], pItem1, 0, 0, none⟩]

/-- An erroring-LLM clusterer with a working fallback. -/
def cFail : LLMClusterer :=
  ⟨some failClient, ("m"), 0, 0, 0, some okFallback, fun _ => none⟩

/-- A chat client that returns one fixed choice. -/
def okClient : List NewsItem → Option (List Choice) :=
  fun _ => some [⟨("\x7bx\x7d")⟩]

/-- A decoder producing one declared cluster over `n1`. -/
def okDecode : String → Option DecodedPayload :=
  fun _ => some ⟨[⟨("ev1"), [("n1")], (""), (""), (""), (""), (""), [], []⟩]⟩

/-- A cached clusterer around the working client. -/
def cCache : CachedLLMClusterer :=
  ⟨⟨some okClient, ("m"), 0, 0, 0, some okFallback, okDecode⟩, 60⟩

/-- The clusters `llmDerive` produces for `cCache` on `[pItem1]`. -/
def derivedW : List Cluster :=
  match llmDerive cCache.core okClient [pItem1] with
  | .ok cs => cs
  | .error _ => []

/-! ### Supporting lemmas -/

theorem clamp01_nonneg (v : ℚ) : 0 ≤ clamp01 v := by
  unfold clamp01
  split_ifs with h₁ h₂ <;> linarith

theorem clamp01_le_one (v : ℚ) : clamp01 v ≤ 1 := by
  unfold clamp01
  split_ifs with h₁ h₂ <;> linarith

theorem goRound_mono {x y : ℚ} (hx : 0 ≤ x) (h : x ≤ y) : goRound x ≤ goRound y := by
  unfold goRound
  rw [if_neg (not_lt.mpr hx), if_neg (not_lt.mpr (le_trans hx h))]
  exact Int.floor_le_floor (by linarith)

theorem roundTo3_nonneg {x : ℚ} (h : 0 ≤ x) : 0 ≤ roundTo x 3 := by
  unfold roundTo goRound
  rw [if_neg (not_lt.mpr (by positivity))]
  have : (0 : ℤ) ≤ Int.floor (x * 10 ^ 3 + 1/2) :=
    Int.le_floor.mpr (by push_cast; positivity)
  positivity

theorem roundTo3_le_one {x : ℚ} (h0 : 0 ≤ x) (h : x ≤ 1) : roundTo x 3 ≤ 1 := by
  unfold roundTo goRound
  rw [if_neg (not_lt.mpr (by positivity))]
  have h2 : Int.floor ((1000 : ℚ) + 1/2) = 1000 := by
    rw [Int.floor_eq_iff]
    norm_num
  have hfloor : Int.floor (x * 10 ^ 3 + 1/2) ≤ 1000 :=
    le_trans (Int.floor_le_floor (by nlinarith)) (le_of_eq h2)
  rw [div_le_one (by norm_num)]
  calc ((Int.floor (x * 10 ^ 3 + 1/2) : ℤ) : ℚ) ≤ (1000 : ℚ) := by exact_mod_cast hfloor
    _ ≤ 10 ^ 3 := by norm_num

theorem min1_eq_clamp01 {x : ℚ} (h : 0 ≤ x) : min 1 x = clamp01 x := by
  unfold clamp01
  rcases le_or_lt x 1 with h1 | h1
  · rw [min_eq_right h1, if_neg (not_lt.mpr h), if_neg (not_lt.mpr h1)]
  · rw [min_eq_left h1.le, if_neg (not_lt.mpr h), if_pos h1]

theorem foldl_add_eq_sum (f : NewsItem → ℚ) (l : List NewsItem) :
    ∀ a : ℚ, l.foldl (fun acc it => acc + f it) a = a + (l.map f).sum := by
  induction l with
  | nil => intro a; simp
  | cons x xs ih => intro a; simp [ih, add_assoc]

theorem lookupWeight_mem {m : List (String × ℚ)} {k : String} {w : ℚ}
    (h : lookupWeight m k = some w) : ∃ p ∈ m, p.2 = w := by
  unfold lookupWeight at h
  rcases Option.map_eq_some'.mp h with ⟨p, hp, hw⟩
  exact ⟨p, List.mem_of_find?_eq_some hp, hw⟩

theorem sourceWeightOf_nonneg {s : Scorer} (hsw : ∀ p ∈ s.sourceWeights, 0 ≤ p.2)
    (item : NewsItem) : 0 ≤ sourceWeightOf s item := by
  unfold sourceWeightOf
  cases h : lookupWeight s.sourceWeights (toLowerString item.source) with
  | none => norm_num
  | some w =>
      rcases lookupWeight_mem h with ⟨p, hp, hw⟩
      exact hw ▸ hsw p hp

/-- With nonnegative configured source weights the code's
`min 1 (mean)` agrees with the spec's `clamp01 (mean)`. -/
theorem averageSourceWeight_eq_spec (s : Scorer) (items : List NewsItem)
    (hsw : ∀ p ∈ s.sourceWeights, 0 ≤ p.2) :
    averageSourceWeight s items = specSourceScore s items := by
  unfold averageSourceWeight specSourceScore
  by_cases hne : items = []
  · rw [if_pos hne, if_pos hne]
  · rw [if_neg hne, if_neg hne, foldl_add_eq_sum, zero_add]
    apply min1_eq_clamp01
    apply div_nonneg
    · apply List.sum_nonneg
      intro x hx
      rcases List.mem_map.mp hx with ⟨it, _, rfl⟩
      exact sourceWeightOf_nonneg hsw it
    · exact_mod_cast Nat.zero_le _

theorem le_foldl_max (l : List ℚ) : ∀ a : ℚ, a ≤ l.foldl max a := by
  induction l with
  | nil => intro a; exact le_refl a
  | cons x xs ih => intro a; exact le_trans (le_max_left a x) (ih (max a x))

theorem tagWeight_foldl_eq (s : Scorer) (l : List NewsItem) :
    ∀ a : ℚ, l.foldl (fun best item =>
        match lookupWeight s.tagWeights item.importanceTag with
        | some w => if best < w then w else best
        | none => best) a
      = (l.filterMap (fun it => lookupWeight s.tagWeights it.importanceTag)).foldl max a := by
  induction l with
  | nil => intro a; rfl
  | cons x xs ih =>
      intro a
      simp only [List.foldl_cons, List.filterMap_cons]
      cases h : lookupWeight s.tagWeights x.importanceTag with
      | none => exact ih a
      | some w =>
          simp only [List.foldl_cons]
          have : (if a < w then w else a) = max a w := by
            rcases lt_or_ge a w with hlt | hge
            · rw [if_pos hlt, max_eq_right hlt.le]
            · rw [if_neg (not_lt.mpr hge), max_eq_left hge]
          rw [this]
          exact ih (max a w)

/-- With strictly positive configured tag weights the code's fold-from-0
with the `best == 0 → 0.45` default equals the spec's
maximum-of-matches-or-0.45. -/
theorem tagWeight_eq_spec (s : Scorer) (items : List NewsItem)
    (htw : ∀ p ∈ s.tagWeights, 0 < p.2) :
    tagWeight s items = specTagScore s items := by
  unfold tagWeight specTagScore
  rw [tagWeight_foldl_eq]
  cases hws : items.filterMap (fun it => lookupWeight s.tagWeights it.importanceTag) with
  | nil => simp
  | cons w ws =>
      have hwpos : 0 < w := by
        have hmem : w ∈ items.filterMap
            (fun it => lookupWeight s.tagWeights it.importanceTag) := by
          rw [hws]; exact List.mem_cons_self w ws
        rcases List.mem_filterMap.mp hmem with ⟨it, _, hit⟩
        rcases lookupWeight_mem hit with ⟨p, hp, hpw⟩
        exact hpw ▸ htw p hp
      simp only [List.foldl_cons, max_eq_right hwpos.le]
      have hle : w ≤ ws.foldl max w := le_foldl_max ws w
      have hpos : 0 < ws.foldl max w := lt_of_lt_of_le hwpos hle
      rw [if_neg hpos.ne']

theorem foldl_if_lt_eq_min (l : List NewsItem) : ∀ a : Time,
    l.foldl (fun e it => if it.publishedAt < e then it.publishedAt else e) a
      = l.foldl (fun e it => min e it.publishedAt) a := by
  induction l with
  | nil => intro a; rfl
  | cons x xs ih =>
      intro a
      simp only [List.foldl_cons]
      have : (if x.publishedAt < a then x.publishedAt else a) = min a x.publishedAt := by
        rcases lt_or_ge x.publishedAt a with hlt | hge
        · rw [if_pos hlt, min_eq_right hlt.le]
        · rw [if_neg (not_lt.mpr hge), min_eq_left hge]
      rw [this, ih]

theorem foldl_if_gt_eq_max (l : List NewsItem) : ∀ a : Time,
    l.foldl (fun e it => if e < it.publishedAt then it.publishedAt else e) a
      = l.foldl (fun e it => max e it.publishedAt) a := by
  induction l with
  | nil => intro a; rfl
  | cons x xs ih =>
      intro a
      simp only [List.foldl_cons]
      have : (if a < x.publishedAt then x.publishedAt else a) = max a x.publishedAt := by
        rcases lt_or_ge a x.publishedAt with hlt | hge
        · rw [if_pos hlt, max_eq_right hlt.le]
        · rw [if_neg (not_lt.mpr hge), max_eq_left hge]
      rw [this, ih]

theorem eventEarliest_eq_specStart {items : List NewsItem} (h : items ≠ []) :
    eventEarliest items = specStart items := by
  cases items with
  | nil => exact absurd rfl h
  | cons x xs =>
      unfold eventEarliest specStart
      simp only [List.headD_cons, List.foldl_cons]
      rw [foldl_if_lt_eq_min]
      have : (if x.publishedAt < x.publishedAt then x.publishedAt else x.publishedAt)
          = x.publishedAt := by rw [if_neg (lt_irrefl _)]
      rw [this]

theorem eventLatest_eq_specEnd {items : List NewsItem} (h : items ≠ []) :
    eventLatest items = specEnd items := by
  cases items with
  | nil => exact absurd rfl h
  | cons x xs =>
      unfold eventLatest specEnd
      simp only [List.headD_cons, List.foldl_cons]
      rw [foldl_if_gt_eq_max]
      have : (if x.publishedAt < x.publishedAt then x.publishedAt else x.publishedAt)
          = x.publishedAt := by rw [if_neg (lt_irrefl _)]
      rw [this]

theorem foldl_min_le_foldl_max (l : List NewsItem) : ∀ a b : Time, a ≤ b →
    l.foldl (fun e it => min e it.publishedAt) a
      ≤ l.foldl (fun e it => max e it.publishedAt) b := by
  induction l with
  | nil => intro a b h; exact h
  | cons x xs ih =>
      intro a b h
      simp only [List.foldl_cons]
      exact ih _ _ (le_trans (min_le_left a _) (le_trans h (le_max_left b _)))

theorem specStart_le_specEnd {items : List NewsItem} (h : items ≠ []) :
    specStart items ≤ specEnd items := by
  cases items with
  | nil => exact absurd rfl h
  | cons x xs =>
      unfold specStart specEnd
      exact foldl_min_le_foldl_max xs _ _ (le_refl _)

theorem eventVelocity_eq_spec {items : List NewsItem} (h : items ≠ []) :
    eventVelocity items = specVelocity items := by
  simp only [eventVelocity, specVelocity]
  rw [eventEarliest_eq_specStart h, eventLatest_eq_specEnd h]
  have hle : specStart items ≤ specEnd items := specStart_le_specEnd h
  have hw0 : (0 : ℤ) ≤ specEnd items - specStart items := sub_nonneg.mpr hle
  by_cases hz : specEnd items - specStart items = 0
  · rw [if_neg (by rw [hz]; exact lt_irrefl 0), if_pos (by rw [hz]; norm_num)]
  · have hpos : (0 : ℤ) < specEnd items - specStart items :=
      lt_of_le_of_ne hw0 (Ne.symm hz)
    have hq : (0 : ℚ) < ((specEnd items - specStart items : ℤ) : ℚ) := by
      exact_mod_cast hpos
    have hq2 : (0 : ℚ) < ((specEnd items - specStart items : ℤ) : ℚ) / (nsPerHour : ℚ) := by
      apply div_pos hq
      norm_num [nsPerHour]
    rw [if_pos hpos, if_neg hq2.ne']

theorem eventSentimentScore_eq_spec {items : List NewsItem} (h : items ≠ []) :
    eventSentimentScore items = specSentimentScore items := by
  unfold eventSentimentScore specSentimentScore
  have hiff : (0 < (items.filter (fun it => decide (it.sentiment < 0))).length ∧
      (items.filter (fun it => decide (it.sentiment < 0))).length = items.length)
      ↔ items.all (fun it => decide (it.sentiment < 0)) = true := by
    constructor
    · rintro ⟨_, hlen⟩
      rw [List.all_eq_true]
      intro it hit
      have := (List.Sublist.eq_of_length (List.filter_sublist items) hlen)
      rw [List.filter_eq_self] at this
      exact this it hit
    · intro hall
      rw [List.all_eq_true] at hall
      have hfe : items.filter (fun it => decide (it.sentiment < 0)) = items :=
        List.filter_eq_self.mpr hall
      rw [hfe]
      exact ⟨List.length_pos.mpr h, rfl⟩
  by_cases hall : items.all (fun it => decide (it.sentiment < 0)) = true
  · rw [if_pos (hiff.mpr hall), if_pos hall]
  · rw [if_neg (fun hc => hall (hiff.mp hc)), if_neg hall]

theorem dedupByKey_aux (key : String → String) :
    ∀ (l acc : List String), (acc.map key).Nodup →
      ((l.foldl (dedupStep key) acc).map key).toFinset
          = (acc.map key).toFinset ∪ (l.map key).toFinset ∧
      ((l.foldl (dedupStep key) acc).map key).Nodup ∧
      (∀ x ∈ l.foldl (dedupStep key) acc, x ∈ acc ∨ x ∈ l) := by
  intro l
  induction l with
  | nil =>
      intro acc hacc
      exact ⟨by simp, hacc, fun x hx => Or.inl hx⟩
  | cons z l ih =>
      intro acc hacc
      simp only [List.foldl_cons]
      by_cases hz : acc.any (fun y => key y == key z) = true
      · have hstep : dedupStep key acc z = acc := by rw [dedupStep, if_pos hz]
        rcases List.any_eq_true.mp hz with ⟨y, hy, hkey⟩
        have hkey' : key y = key z := beq_iff_eq.mp hkey
        have hkz : key z ∈ (acc.map key).toFinset := by
          rw [List.mem_toFinset]
          exact List.mem_map.mpr ⟨y, hy, hkey'⟩
        obtain ⟨h1, h2, h3⟩ := ih acc hacc
        rw [hstep]
        refine ⟨?_, h2, ?_⟩
        · rw [h1]
          ext a
          simp only [Finset.mem_union, List.map_cons, List.toFinset_cons,
            Finset.mem_insert]
          constructor
          · rintro (h | h)
            · exact Or.inl h
            · exact Or.inr (Or.inr h)
          · rintro (h | h | h)
            · exact Or.inl h
            · exact Or.inl (h ▸ hkz)
            · exact Or.inr h
        · intro x hx
          rcases h3 x hx with h | h
          · exact Or.inl h
          · exact Or.inr (List.mem_cons_of_mem z h)
      · have hstep : dedupStep key acc z = acc ++ [z] := by rw [dedupStep, if_neg hz]
        have hnotin : key z ∉ acc.map key := by
          intro hmem
          rcases List.mem_map.mp hmem with ⟨y, hy, hkey⟩
          exact hz (List.any_eq_true.mpr ⟨y, hy, beq_iff_eq.mpr hkey⟩)
        have hacc' : ((acc ++ [z]).map key).Nodup := by
          rw [List.map_append]
          rw [List.nodup_append]
          refine ⟨hacc, List.nodup_singleton _, ?_⟩
          intro a ha hb
          rcases List.mem_singleton.mp hb with rfl
          exact hnotin ha
        obtain ⟨h1, h2, h3⟩ := ih (acc ++ [z]) hacc'
        rw [hstep]
        refine ⟨?_, h2, ?_⟩
        · rw [h1]
          ext a
          simp only [Finset.mem_union, List.map_append, List.map_cons,
            List.toFinset_append, List.toFinset_cons, Finset.mem_insert,
            List.map_nil, List.toFinset_nil, Finset.mem_singleton,
            Finset.union_assoc, Finset.mem_union]
          tauto
        · intro x hx
          rcases h3 x hx with h | h
          · rcases List.mem_append.mp h with h | h
            · exact Or.inl h
            · exact Or.inr (List.mem_cons.mpr (Or.inl (List.mem_singleton.mp h)))
          · exact Or.inr (List.mem_cons_of_mem z h)

theorem dedupByKey_nodup (key : String → String) (l : List String) :
    ((dedupByKey key l).map key).Nodup :=
  (dedupByKey_aux key l [] (by simp)).2.1

theorem dedupByKey_toFinset (key : String → String) (l : List String) :
    ((dedupByKey key l).map key).toFinset = (l.map key).toFinset := by
  have h := (dedupByKey_aux key l [] (by simp)).1
  simpa using h

theorem dedupByKey_subset (key : String → String) (l : List String) :
    ∀ x ∈ dedupByKey key l, x ∈ l := by
  intro x hx
  rcases (dedupByKey_aux key l [] (by simp)).2.2 x hx with h | h
  · cases h
  · exact h

theorem dedupByKey_length (key : String → String) (l : List String) :
    (dedupByKey key l).length = ((l.map key).toFinset).card := by
  have hnd := dedupByKey_nodup key l
  have hlen : (dedupByKey key l).length = ((dedupByKey key l).map key).length := by
    simp
  rw [hlen, ← List.toFinset_card_of_nodup hnd, dedupByKey_toFinset]

theorem dedupByKey_key_surj (key : String → String) (l : List String) :
    ∀ x ∈ l, ∃ y ∈ dedupByKey key l, key y = key x := by
  intro x hx
  have hmem : key x ∈ ((dedupByKey key l).map key).toFinset := by
    rw [dedupByKey_toFinset, List.mem_toFinset]
    exact List.mem_map.mpr ⟨x, hx, rfl⟩
  rw [List.mem_toFinset] at hmem
  rcases List.mem_map.mp hmem with ⟨y, hy, hk⟩
  exact ⟨y, hy, hk⟩

theorem dedupByKey_id_mem (l : List String) (x : String) :
    x ∈ dedupByKey (fun t => t) l ↔ x ∈ l := by
  constructor
  · exact dedupByKey_subset _ l x
  · intro hx
    rcases dedupByKey_key_surj (fun t => t) l x hx with ⟨y, hy, hk⟩
    exact hk ▸ hy

/-- C8: `similarity(a,a) = 1` whenever `tokenize(a)` is non-empty, and
`similarity(a,b) = similarity(b,a)` for all strings `a`, `b`. -/
theorem similarity_props :
    (∀ a : String, tokenize a ≠ [] → similarityScore a a = 1) ∧
    (∀ a b : String, similarityScore a b = similarityScore b a) := by
  constructor
  · intro a ha
    have hcard : (tokenize a).toFinset.card ≠ 0 := by
      simp only [ne_eq, Finset.card_eq_zero, List.toFinset_eq_empty_iff]
      exact ha
    simp only [similarityScore, Finset.inter_self, ha, or_self, if_false,
      Nat.add_sub_cancel]
    rw [if_neg hcard]
    exact div_self (by exact_mod_cast hcard)
  · intro a b
    by_cases hab : tokenize a = [] ∨ tokenize b = []
    · simp only [similarityScore]
      rw [if_pos hab, if_pos (Or.symm hab)]
    · simp only [similarityScore]
      rw [if_neg hab, if_neg (fun h => hab (Or.symm h)), Finset.inter_comm,
        Nat.add_comm ((tokenize a).toFinset.card)]

/-- Witness for C8 at a concrete headline. -/
theorem similarity_props_witness :
    tokenize ("markets rally strongly") ≠ [] ∧
    similarityScore ("markets rally strongly") ("markets rally strongly") = 1 :=
  ⟨by decide, similarity_props.1 ("markets rally strongly") (by decide)⟩

theorem eventNovelty_eq_spec (items : List NewsItem) :
    eventNovelty items = specNovelty items := by
  unfold eventNovelty specNovelty
  rcases le_or_lt ((items.length : ℚ)) 1 with h | h
  · rw [if_neg (not_lt.mpr h), if_pos h]
  · rw [if_pos h, if_neg (not_le.mpr h)]

theorem eventTickers_length (items : List NewsItem) :
    ((eventTickers items).length : ℚ) = (specReach items : ℚ) := by
  unfold eventTickers sortStrings specReach
  rw [List.length_insertionSort, dedupByKey_length]
  rw [show List.map (fun t : String => t) (List.map toUpperString (items.flatMap fun x => x.tickers)) = List.map toUpperString (items.flatMap fun x => x.tickers) from List.map_id _]

theorem eventEntities_length (items : List NewsItem) :
    ((eventEntities items).length : ℚ) = (specEntityCount items : ℚ) := by
  unfold eventEntities sortStrings specEntityCount
  rw [List.length_insertionSort, dedupByKey_length]

theorem buildEvent_hotness (s : Scorer) (cluster : Cluster) (h : cluster.items ≠ []) :
    (buildEvent s cluster).hotness = roundTo (eventHotness s cluster.items) 3 := by
  simp only [buildEvent, if_neg h]

theorem eventHotness_eq_spec (s : Scorer) (items : List NewsItem)
    (hsw : ∀ p ∈ s.sourceWeights, 0 ≤ p.2) (htw : ∀ p ∈ s.tagWeights, 0 < p.2)
    (hne : items ≠ []) :
    roundTo (eventHotness s items) 3 = specHotness s items := by
  unfold eventHotness weightedSum specHotness
  rw [averageSourceWeight_eq_spec s items hsw, tagWeight_eq_spec s items htw,
    eventVelocity_eq_spec hne, eventSentimentScore_eq_spec hne,
    eventTickers_length, eventEntities_length, eventNovelty_eq_spec]
  congr 1
  congr 1
  ring

/-- C1 (amended): for any scorer whose configured source weights are
nonnegative and configured tag weights strictly positive, the hotness of
the event built for a non-empty cluster equals the §4.7 weighted-sum
formula (clamped and rounded to 3 decimals), and hotness lies in [0,1].
The weight restriction is forced by `hotness_formula_counterexample`:
scoring.go clamps the source mean only from above (`min 1 mean`), while
§4.7 clamps it to [0,1], and a weight of 0 for a matching tag falls back
to 0.45 in the code. -/
theorem hotness_formula (s : Scorer) (cluster : Cluster)
    (hsw : ∀ p ∈ s.sourceWeights, 0 ≤ p.2)
    (htw : ∀ p ∈ s.tagWeights, 0 < p.2)
    (hne : cluster.items ≠ []) :
    (buildEvent s cluster).hotness = specHotness s cluster.items ∧
    0 ≤ (buildEvent s cluster).hotness ∧ (buildEvent s cluster).hotness ≤ 1 := by
  have hb := buildEvent_hotness s cluster hne
  have h0 : 0 ≤ eventHotness s cluster.items := by
    unfold eventHotness weightedSum
    exact clamp01_nonneg _
  have h1 : eventHotness s cluster.items ≤ 1 := by
    unfold eventHotness weightedSum
    exact clamp01_le_one _
  refine ⟨?_, ?_, ?_⟩
  · rw [hb]; exact eventHotness_eq_spec s cluster.items hsw htw hne
  · rw [hb]; exact roundTo3_nonneg h0
  · rw [hb]; exact roundTo3_le_one h0 h1

/-- C1 (counterexample): with a configured source weight of −8 the code's
hotness (0, because `min 1 mean` keeps the negative mean) differs from the
§4.7 formula (0.376, because §4.7 clamps the mean to [0,1]). -/
theorem hotness_formula_counterexample :
    negCluster.items ≠ [] ∧
    (buildEvent negScorer negCluster).hotness = 0 ∧
    specHotness negScorer negCluster.items = 47/125 ∧
    (buildEvent negScorer negCluster).hotness
      ≠ specHotness negScorer negCluster.items := by
  have htl : toLowerString ("x") = ("x") := by decide
  have h1 : (buildEvent negScorer negCluster).hotness = 0 := by
    norm_num [buildEvent, negCluster, eventHotness,
      weightedSum, eventVelocity, eventLatest, eventEarliest, eventNovelty,
      eventSentimentScore, averageSourceWeight, tagWeight, sourceWeightOf, htl,
      eventTickers, eventEntities, dedupByKey, dedupStep, sortStrings,
      List.insertionSort, roundTo, goRound, clamp01, itemRef, nsPerHour,
      negScorer, lookupWeight, negItem, NewsItem.empty]
  have h2 : specHotness negScorer negCluster.items = 47/125 := by
    have hfloor : Int.floor ((376 : ℚ) + 1/2) = 376 := by
      rw [Int.floor_eq_iff]
      norm_num
    norm_num [specHotness, specVelocity, specStart, specEnd, specSourceScore,
      specTagScore, specSentimentScore, specNovelty, specReach, specEntityCount,
      clamp01, roundTo, goRound, lookupWeight, sourceWeightOf, htl, negScorer,
      negItem, negCluster, NewsItem.empty, nsPerHour, hfloor]
  refine ⟨by decide, h1, h2, ?_⟩
  rw [h1, h2]
  norm_num

/-- Witness for C1 at a concrete scorer and singleton cluster. -/
theorem hotness_formula_witness :
    (∀ p ∈ wScorer.sourceWeights, 0 ≤ p.2) ∧
    (∀ p ∈ wScorer.tagWeights, 0 < p.2) ∧
    wCluster.items ≠ [] ∧
    ((buildEvent wScorer wCluster).hotness = specHotness wScorer wCluster.items ∧
      0 ≤ (buildEvent wScorer wCluster).hotness ∧
      (buildEvent wScorer wCluster).hotness ≤ 1) :=
  ⟨by decide, by decide, by decide,
    hotness_formula wScorer wCluster (by decide) (by decide) (by decide)⟩

theorem tagWeight_pos (s : Scorer) (items : List NewsItem) : 0 < tagWeight s items := by
  simp only [tagWeight]
  rw [tagWeight_foldl_eq]
  have hb0 : (0 : ℚ) ≤
      (items.filterMap fun it => lookupWeight s.tagWeights it.importanceTag).foldl max 0 :=
    le_foldl_max _ 0
  by_cases hz : (items.filterMap fun it =>
      lookupWeight s.tagWeights it.importanceTag).foldl max 0 = 0
  · rw [if_pos hz]; norm_num
  · rw [if_neg hz]; exact lt_of_le_of_ne hb0 (Ne.symm hz)

theorem eventSentimentScore_nonneg (items : List NewsItem) :
    0 ≤ eventSentimentScore items := by
  simp only [eventSentimentScore]
  have habs : (0:ℚ) ≤ (items.map (fun it => |it.sentiment|)).sum := by
    apply List.sum_nonneg
    intro x hx
    rcases List.mem_map.mp hx with ⟨it, _, rfl⟩
    positivity
  have hbase : (0:ℚ) ≤
      min 1 ((items.map (fun it => |it.sentiment|)).sum / (items.length : ℚ)) := by
    apply le_min (by norm_num)
    exact div_nonneg habs (by positivity)
  split_ifs
  · exact le_min (by norm_num) (by linarith)
  · exact hbase

theorem averageSourceWeight_nonneg (s : Scorer) (items : List NewsItem)
    (hsw : ∀ p ∈ s.sourceWeights, 0 ≤ p.2) : 0 ≤ averageSourceWeight s items := by
  rw [averageSourceWeight_eq_spec s items hsw]
  unfold specSourceScore
  split_ifs
  · norm_num
  · exact clamp01_nonneg _

theorem clamp01_ge {c v : ℚ} (h0 : 0 ≤ c) (h1 : c ≤ 1) (h : c ≤ v) :
    c ≤ clamp01 v := by
  unfold clamp01
  split_ifs <;> linarith

theorem roundTo3_ge_109 {x : ℚ} (h : 109/1000 ≤ x) : 109/1000 ≤ roundTo x 3 := by
  unfold roundTo
  have hfloor : Int.floor ((109 : ℚ) + 1/2) = 109 := by
    rw [Int.floor_eq_iff]
    norm_num
  have h1 : goRound ((109 : ℚ)) ≤ goRound (x * 10 ^ 3) :=
    goRound_mono (by norm_num) (by nlinarith)
  have h2 : goRound ((109 : ℚ)) = 109 := by
    unfold goRound
    rw [if_neg (by norm_num)]
    exact hfloor
  rw [h2] at h1
  rw [le_div_iff₀ (by norm_num : (0:ℚ) < 10 ^ 3)]
  calc (109 : ℚ)/1000 * 10 ^ 3 = 109 := by norm_num
    _ ≤ (goRound (x * 10 ^ 3) : ℚ) := by exact_mod_cast h1

/-- The hotness of any non-empty cluster is at least 0.109 when the
configured source weights are nonnegative: the coverage, velocity and
novelty terms alone contribute 0.045 + 0.036 + 0.028. -/
theorem eventHotness_ge (s : Scorer) (items : List NewsItem)
    (hsw : ∀ p ∈ s.sourceWeights, 0 ≤ p.2) (hne : items ≠ []) :
    109/1000 ≤ eventHotness s items := by
  unfold eventHotness weightedSum
  apply clamp01_ge (by norm_num) (by norm_num)
  have hcov : 1/4 ≤ min 1 ((items.length : ℚ)/4) := by
    have hlen : 1 ≤ (items.length : ℚ) := by
      have h1 : 1 ≤ items.length := List.length_pos.mpr hne
      exact_mod_cast h1
    exact le_min (by norm_num) (by linarith)
  have hvel : 1/5 ≤ eventVelocity items := by
    simp only [eventVelocity]
    split_ifs
    · exact le_trans (by norm_num) (le_max_left _ _)
    · norm_num
  have hnov : 2/5 ≤ eventNovelty items := by
    unfold eventNovelty
    split_ifs
    · have hm := min_le_left (6/10 : ℚ) (((items.length : ℚ) - 1) * (12/100))
      linarith
    · norm_num
  have htag : 0 < tagWeight s items := tagWeight_pos s items
  have hsent : 0 ≤ eventSentimentScore items := eventSentimentScore_nonneg items
  have hsrc : 0 ≤ averageSourceWeight s items := averageSourceWeight_nonneg s items hsw
  have hb1 : (0:ℚ) ≤ min 1 (((eventTickers items).length : ℚ)/4) :=
    le_min (by norm_num) (by positivity)
  have hb2 : (0:ℚ) ≤ min 1 (((eventEntities items).length : ℚ)/6) :=
    le_min (by norm_num) (by positivity)
  linarith

/-- C9 (amended): for any scorer whose configured source weights are
nonnegative (the tag-weight map may be arbitrary) and any list of
non-empty clusters, every built event has strictly positive hotness, so
the `hotness ≤ 0` drop branch never fires and `ScoreClusters` returns
exactly one event per cluster.  The nonnegativity restriction is forced by
`scoreClusters_complete_counterexample`. -/
theorem scoreClusters_complete (s : Scorer) (clusters : List Cluster)
    (hsw : ∀ p ∈ s.sourceWeights, 0 ≤ p.2)
    (hne : ∀ cluster ∈ clusters, cluster.items ≠ []) :
    (∀ cluster ∈ clusters, 0 < (buildEvent s cluster).hotness) ∧
    (scoreClusters s clusters).length = clusters.length := by
  have hpos : ∀ cluster ∈ clusters, 0 < (buildEvent s cluster).hotness := by
    intro cluster hc
    rw [buildEvent_hotness s cluster (hne cluster hc)]
    have h109 := roundTo3_ge_109 (eventHotness_ge s cluster.items hsw (hne cluster hc))
    linarith
  refine ⟨hpos, ?_⟩
  unfold scoreClusters
  by_cases hcl : clusters = []
  · rw [if_pos hcl, hcl]
    rfl
  · rw [if_neg hcl]
    have hfe : (clusters.map (buildEvent s)).filter (fun e => decide (0 < e.hotness))
        = clusters.map (buildEvent s) := by
      apply List.filter_eq_self.mpr
      intro e he
      rcases List.mem_map.mp he with ⟨cluster, hc, rfl⟩
      simp only [decide_eq_true_eq]
      exact hpos cluster hc
    unfold sortEvents
    rw [List.length_insertionSort, hfe, List.length_map]

/-- C9 (counterexample): with a configured source weight of −8 the single
non-empty cluster's hotness is 0, the drop branch fires, and
`ScoreClusters` returns no events. -/
theorem scoreClusters_complete_counterexample :
    negCluster.items ≠ [] ∧
    (buildEvent negScorer negCluster).hotness = 0 ∧
    scoreClusters negScorer [negCluster] = [] := by
  have htl : toLowerString ("x") = ("x") := by decide
  have h1 : (buildEvent negScorer negCluster).hotness = 0 := by
    norm_num [buildEvent, negCluster, eventHotness,
      weightedSum, eventVelocity, eventLatest, eventEarliest, eventNovelty,
      eventSentimentScore, averageSourceWeight, tagWeight, sourceWeightOf, htl,
      eventTickers, eventEntities, dedupByKey, dedupStep, sortStrings,
      List.insertionSort, roundTo, goRound, clamp01, itemRef, nsPerHour,
      negScorer, lookupWeight, negItem, NewsItem.empty]
  refine ⟨by decide, h1, ?_⟩
  simp [scoreClusters, sortEvents, List.insertionSort, h1]

/-- Witness for C9 at a concrete scorer and singleton cluster list. -/
theorem scoreClusters_complete_witness :
    (∀ p ∈ wScorer.sourceWeights, 0 ≤ p.2) ∧
    (∀ cluster ∈ [wCluster], cluster.items ≠ []) ∧
    ((∀ cluster ∈ [wCluster], 0 < (buildEvent wScorer cluster).hotness) ∧
      (scoreClusters wScorer [wCluster]).length = ([wCluster] : List Cluster).length) :=
  ⟨by decide, by decide,
    scoreClusters_complete wScorer [wCluster] (by decide) (by decide)⟩

theorem buildEvent_dedupGroup (s : Scorer) (cluster : Cluster) (h : cluster.items ≠ []) :
    (buildEvent s cluster).dedupGroup = cluster.id := by
  simp only [buildEvent, if_neg h]

theorem buildEvent_tickers (s : Scorer) (cluster : Cluster) (h : cluster.items ≠ []) :
    (buildEvent s cluster).tickers = eventTickers cluster.items := by
  simp only [buildEvent, if_neg h]

theorem buildEvent_entities (s : Scorer) (cluster : Cluster) (h : cluster.items ≠ []) :
    (buildEvent s cluster).entities = eventEntities cluster.items := by
  simp only [buildEvent, if_neg h]

theorem buildEvent_sources (s : Scorer) (cluster : Cluster) (h : cluster.items ≠ []) :
    (buildEvent s cluster).sources = sortRefs (cluster.items.map itemRef) := by
  simp only [buildEvent, if_neg h]

theorem buildEvent_quote (s : Scorer) (cluster : Cluster) (h : cluster.items ≠ []) :
    (buildEvent s cluster).draft.quote = selectQuote (cluster.items.map itemRef) := by
  simp only [buildEvent, if_neg h, buildDraft]

/-- `ScoreClusters` on one non-empty cluster with nonnegative source
weights returns exactly the built event. -/
theorem scoreClusters_singleton (s : Scorer) (c : Cluster)
    (hsw : ∀ p ∈ s.sourceWeights, 0 ≤ p.2) (hne : c.items ≠ []) :
    scoreClusters s [c] = [buildEvent s c] := by
  have hpos : 0 < (buildEvent s c).hotness := by
    rw [buildEvent_hotness s c hne]
    have h109 := roundTo3_ge_109 (eventHotness_ge s c.items hsw hne)
    linarith
  have hd : decide (0 < (buildEvent s c).hotness) = true := decide_eq_true hpos
  unfold scoreClusters
  rw [if_neg (by simp)]
  simp only [List.map_cons, List.map_nil, List.filter_cons, List.filter_nil, hd,
    if_true]
  rfl

theorem mem_scoreClusters {s : Scorer} {clusters : List Cluster} {ev : Event}
    (h : ev ∈ scoreClusters s clusters) :
    ∃ cluster ∈ clusters, ev = buildEvent s cluster := by
  unfold scoreClusters at h
  by_cases hcl : clusters = []
  · rw [if_pos hcl] at h
    cases h
  · rw [if_neg hcl] at h
    unfold sortEvents at h
    rw [List.mem_insertionSort] at h
    have h2 := List.mem_of_mem_filter h
    rcases List.mem_map.mp h2 with ⟨cluster, hc, hev⟩
    exact ⟨cluster, hc, hev.symm⟩

/-- C4 (amended): the event list of `ScoreClusters` is sorted
non-increasing by hotness and is a permutation of the kept (positive
hotness) events; no id tie-break is applied, so equal-hotness events are
not reordered (Go's sort is insertion sort below 12 elements, which the
model mirrors). -/
theorem scoreClusters_sorted (s : Scorer) (clusters : List Cluster) :
    (scoreClusters s clusters).Pairwise eventGE ∧
    (scoreClusters s clusters).Perm
      ((clusters.map (buildEvent s)).filter (fun e => decide (0 < e.hotness))) := by
  unfold scoreClusters
  by_cases hcl : clusters = []
  · rw [if_pos hcl]
    subst hcl
    exact ⟨List.Pairwise.nil, by simp⟩
  · rw [if_neg hcl]
    exact ⟨List.sorted_insertionSort eventGE _, List.perm_insertionSort eventGE _⟩

/-- C4 (counterexample): two clusters with identical content and ids `b`
then `a` tie on hotness and come back in input order `[b, a]`, not in
ascending id order as claimed. -/
theorem scoreClusters_sorted_counterexample :
    ¬ (scoreClusters wScorer [tieClusterB, tieClusterA]).Pairwise claimedEventOrder := by
  have hneB : tieClusterB.items ≠ [] := by decide
  have hneA : tieClusterA.items ≠ [] := by decide
  have hhB := buildEvent_hotness wScorer tieClusterB hneB
  have hhA := buildEvent_hotness wScorer tieClusterA hneA
  have heq : (buildEvent wScorer tieClusterB).hotness
      = (buildEvent wScorer tieClusterA).hotness := by
    rw [hhB, hhA]
    rfl
  have hsw : ∀ p ∈ wScorer.sourceWeights, 0 ≤ p.2 := by decide
  have hpos : 0 < (buildEvent wScorer tieClusterB).hotness := by
    rw [hhB]
    have h109 := roundTo3_ge_109 (eventHotness_ge wScorer tieClusterB.items hsw hneB)
    linarith
  have hdB : decide (0 < (buildEvent wScorer tieClusterB).hotness) = true :=
    decide_eq_true hpos
  have hdA : decide (0 < (buildEvent wScorer tieClusterA).hotness) = true :=
    decide_eq_true (heq ▸ hpos)
  have hscore : scoreClusters wScorer [tieClusterB, tieClusterA]
      = [buildEvent wScorer tieClusterB, buildEvent wScorer tieClusterA] := by
    unfold scoreClusters
    rw [if_neg (by simp)]
    simp only [List.map_cons, List.map_nil, List.filter_cons, List.filter_nil,
      hdB, hdA, if_true]
    unfold sortEvents
    apply List.Sorted.insertionSort_eq
    exact List.pairwise_cons.mpr
      ⟨fun f hf => by
        rcases List.mem_singleton.mp hf with rfl
        exact le_of_eq heq.symm,
       List.pairwise_singleton _ _⟩
  rw [hscore]
  intro hpair
  have hord := (List.pairwise_cons.mp hpair).1 (buildEvent wScorer tieClusterA)
    (List.mem_singleton.mpr rfl)
  rcases hord with hlt | ⟨_, hle⟩
  · rw [heq] at hlt
    exact lt_irrefl _ hlt
  · rw [buildEvent_dedupGroup wScorer tieClusterB hneB,
      buildEvent_dedupGroup wScorer tieClusterA hneA] at hle
    exact absurd hle (by decide)

/-- C7 (amended): in every returned event the tickers are the members'
tickers uppercased, deduplicated and sorted; the entities are the members'
entities deduplicated case-insensitively keeping the original case, but
sorted lexicographically — not in first-seen order. -/
theorem event_tickers_entities (s : Scorer) (clusters : List Cluster) (ev : Event)
    (hev : ev ∈ scoreClusters s clusters) :
    ∃ cluster ∈ clusters, ev = buildEvent s cluster ∧
      ev.tickers.Pairwise stringLE ∧ ev.tickers.Nodup ∧
      (∀ t, t ∈ ev.tickers ↔ ∃ it ∈ cluster.items, ∃ r ∈ it.tickers,
        t = toUpperString r) ∧
      ev.entities.Pairwise stringLE ∧ (ev.entities.map normalizeEntity).Nodup ∧
      (∀ e ∈ ev.entities, ∃ it ∈ cluster.items, e ∈ it.entities) ∧
      (∀ it ∈ cluster.items, ∀ e ∈ it.entities, ∃ e2 ∈ ev.entities,
        normalizeEntity e2 = normalizeEntity e) := by
  rcases mem_scoreClusters hev with ⟨cluster, hc, rfl⟩
  refine ⟨cluster, hc, rfl, ?_⟩
  by_cases hne : cluster.items = []
  · simp only [buildEvent, if_pos hne, Event.empty, hne]
    refine ⟨List.Pairwise.nil, List.nodup_nil, ?_, List.Pairwise.nil, by simp, by simp,
      by simp⟩
    intro t
    simp
  · rw [buildEvent_tickers s cluster hne, buildEvent_entities s cluster hne]
    unfold eventTickers eventEntities sortStrings
    have hufin := dedupByKey_toFinset (fun t => t)
      ((cluster.items.flatMap (·.tickers)).map toUpperString)
    refine ⟨List.sorted_insertionSort stringLE _, ?_, ?_, ?_, ?_, ?_, ?_⟩
    · rw [(List.perm_insertionSort stringLE _).nodup_iff]
      have hnd := dedupByKey_nodup (fun t => t)
        ((cluster.items.flatMap (·.tickers)).map toUpperString)
      have hmapid : List.map (fun t : String => t)
          (dedupByKey (fun t => t) ((cluster.items.flatMap (·.tickers)).map toUpperString))
          = dedupByKey (fun t => t)
              ((cluster.items.flatMap (·.tickers)).map toUpperString) :=
        List.map_id _
      rwa [hmapid] at hnd
    · intro t
      rw [List.mem_insertionSort, dedupByKey_id_mem]
      constructor
      · intro ht
        rcases List.mem_map.mp ht with ⟨r, hr, rfl⟩
        rcases List.mem_flatMap.mp hr with ⟨it, hit, hrt⟩
        exact ⟨it, hit, r, hrt, rfl⟩
      · rintro ⟨it, hit, r, hrt, rfl⟩
        exact List.mem_map.mpr ⟨r, List.mem_flatMap.mpr ⟨it, hit, hrt⟩, rfl⟩
    · exact List.sorted_insertionSort stringLE _
    · rw [(List.Perm.map normalizeEntity (List.perm_insertionSort stringLE _)).nodup_iff]
      exact dedupByKey_nodup normalizeEntity (cluster.items.flatMap (·.entities))
    · intro e he
      rw [List.mem_insertionSort] at he
      have h2 := dedupByKey_subset normalizeEntity _ e he
      rcases List.mem_flatMap.mp h2 with ⟨it, hit, het⟩
      exact ⟨it, hit, het⟩
    · intro it hit e he
      have h2 : e ∈ cluster.items.flatMap (·.entities) :=
        List.mem_flatMap.mpr ⟨it, hit, he⟩
      rcases dedupByKey_key_surj normalizeEntity _ e h2 with ⟨e2, he2, hk⟩
      exact ⟨e2, (List.mem_insertionSort _).mpr he2, hk⟩

/-- C7 (counterexample): for a cluster whose item lists entities
`["beta", "Alpha"]`, the event's entity list is the sorted
`["Alpha", "beta"]`, not the first-seen order `["beta", "Alpha"]`. -/
theorem event_entities_counterexample :
    dedupByKey normalizeEntity (wCluster.items.flatMap (·.entities))
      = [("beta"), ("Alpha")] ∧
    (buildEvent wScorer wCluster).entities = [("Alpha"), ("beta")] ∧
    (buildEvent wScorer wCluster).entities
      ≠ dedupByKey normalizeEntity (wCluster.items.flatMap (·.entities)) := by
  refine ⟨by decide, by decide, by decide⟩

/-- Witness for C7 at a concrete scorer and singleton cluster list. -/
theorem event_tickers_entities_witness :
    buildEvent wScorer wCluster ∈ scoreClusters wScorer [wCluster] ∧
    (∃ cluster ∈ [wCluster], buildEvent wScorer wCluster = buildEvent wScorer cluster ∧
      (buildEvent wScorer wCluster).tickers.Pairwise stringLE ∧
      (buildEvent wScorer wCluster).tickers.Nodup ∧
      (∀ t, t ∈ (buildEvent wScorer wCluster).tickers ↔
        ∃ it ∈ cluster.items, ∃ r ∈ it.tickers, t = toUpperString r) ∧
      (buildEvent wScorer wCluster).entities.Pairwise stringLE ∧
      ((buildEvent wScorer wCluster).entities.map normalizeEntity).Nodup ∧
      (∀ e ∈ (buildEvent wScorer wCluster).entities, ∃ it ∈ cluster.items,
        e ∈ it.entities) ∧
      (∀ it ∈ cluster.items, ∀ e ∈ it.entities,
        ∃ e2 ∈ (buildEvent wScorer wCluster).entities,
          normalizeEntity e2 = normalizeEntity e)) := by
  have hmem : buildEvent wScorer wCluster ∈ scoreClusters wScorer [wCluster] := by
    rw [scoreClusters_singleton wScorer wCluster (by decide) (by decide)]
    exact List.mem_singleton.mpr rfl
  exact ⟨hmem, event_tickers_entities wScorer [wCluster] _ hmem⟩

/-- C10: the event's Sources list is sorted ascending by published
timestamp (the in-place sort inside `selectQuote` acts on the shared
slice), it is a permutation of the per-item references, and the draft
quote is `source — headline` of the head (earliest) reference. -/
theorem event_sources_sorted (s : Scorer) (cluster : Cluster)
    (hne : cluster.items ≠ []) :
    (buildEvent s cluster).sources.Pairwise refLE ∧
    (buildEvent s cluster).sources.Perm (cluster.items.map itemRef) ∧
    (buildEvent s cluster).draft.quote =
      (match (buildEvent s cluster).sources with
       | [] => ""
       | r :: _ => r.source ++ " — " ++ r.title) := by
  rw [buildEvent_quote s cluster hne]
  rw [buildEvent_sources s cluster hne]
  refine ⟨?_, ?_, ?_⟩
  · exact List.sorted_insertionSort refLE _
  · exact List.perm_insertionSort refLE _
  · rw [selectQuote]

/-- Witness for C10 at a two-item cluster. -/
theorem event_sources_sorted_witness :
    wCluster2.items ≠ [] ∧
    ((buildEvent wScorer wCluster2).sources.Pairwise refLE ∧
      (buildEvent wScorer wCluster2).sources.Perm (wCluster2.items.map itemRef) ∧
      (buildEvent wScorer wCluster2).draft.quote =
        (match (buildEvent wScorer wCluster2).sources with
         | [] => ""
         | r :: _ => r.source ++ " — " ++ r.title)) :=
  ⟨by decide, event_sources_sorted wScorer wCluster2 (by decide)⟩

theorem tryAssign_join {c : HeuristicClusterer} {item : NewsItem} :
    ∀ {cs cs' : List Cluster}, tryAssign c item cs = some cs' →
      (clustersItems cs').Perm (item :: clustersItems cs) := by
  intro cs
  induction cs with
  | nil => intro cs' h; cases h
  | cons cl rest ih =>
      intro cs' h
      rw [tryAssign] at h
      split_ifs at h with hcond
      · rcases Option.some.inj h with rfl
        show (clustersItems (addToCluster cl item :: rest)).Perm
          (item :: clustersItems (cl :: rest))
        simp only [clustersItems, List.map_cons, List.flatten_cons, addToCluster]
        have heq : (cl.items ++ [item]) ++ ((rest.map (·.items)).flatten)
            = cl.items ++ (item :: (rest.map (·.items)).flatten) := by
          rw [List.append_assoc]; rfl
        rw [heq]
        exact List.perm_middle
      · rcases Option.map_eq_some'.mp h with ⟨rest', hrest, rfl⟩
        have hperm := ih hrest
        show (clustersItems (cl :: rest')).Perm (item :: clustersItems (cl :: rest))
        simp only [clustersItems, List.map_cons, List.flatten_cons] at hperm ⊢
        exact (List.Perm.append_left cl.items hperm).trans List.perm_middle

theorem buildFold_join (c : HeuristicClusterer) :
    ∀ (l : List NewsItem) (st : List Cluster × ℕ),
      (clustersItems ((l.foldl (buildStep c) st).1)).Perm (clustersItems st.1 ++ l) := by
  intro l
  induction l with
  | nil => intro st; simp
  | cons x l ih =>
      intro st
      rw [List.foldl_cons]
      have hstep : (clustersItems (buildStep c st x).1).Perm (clustersItems st.1 ++ [x]) := by
        rw [buildStep]
        cases htry : tryAssign c x st.1 with
        | some cs =>
            simp only
            exact (tryAssign_join htry).trans (List.perm_append_singleton x _).symm
        | none =>
            simp only [clustersItems, List.map_append, List.flatten_append,
              List.map_cons, List.flatten_cons, newCluster, List.map_nil,
              List.flatten_nil]
            simp
      have hfinal := (ih (buildStep c st x)).trans (List.Perm.append_right l hstep)
      have heq2 : (clustersItems st.1 ++ [x]) ++ l = clustersItems st.1 ++ (x :: l) := by
        rw [List.append_assoc]; rfl
      rw [heq2] at hfinal
      exact hfinal

theorem tryAssign_sizes {c : HeuristicClusterer} {item : NewsItem} :
    ∀ {cs cs' : List Cluster}, tryAssign c item cs = some cs' →
      (∀ cl ∈ cs, (cl.items.length : ℤ) ≤ c.maxClusterSize) →
      ∀ cl ∈ cs', (cl.items.length : ℤ) ≤ c.maxClusterSize := by
  intro cs
  induction cs with
  | nil => intro cs' h; cases h
  | cons cl rest ih =>
      intro cs' h hall
      rw [tryAssign] at h
      split_ifs at h with hcond
      · rcases Option.some.inj h with rfl
        intro cl2 hcl2
        rcases List.mem_cons.mp hcl2 with rfl | hmem
        · simp only [addToCluster, List.length_append, List.length_singleton]
          push_cast
          omega
        · exact hall cl2 (List.mem_cons_of_mem cl hmem)
      · rcases Option.map_eq_some'.mp h with ⟨rest', hrest, rfl⟩
        intro cl2 hcl2
        rcases List.mem_cons.mp hcl2 with rfl | hmem
        · exact hall cl2 (List.mem_cons_self cl2 rest)
        · exact ih hrest (fun d hd => hall d (List.mem_cons_of_mem cl hd)) cl2 hmem

theorem buildFold_sizes (c : HeuristicClusterer) (hmax : 1 ≤ c.maxClusterSize) :
    ∀ (l : List NewsItem) (st : List Cluster × ℕ),
      (∀ cl ∈ st.1, (cl.items.length : ℤ) ≤ c.maxClusterSize) →
      ∀ cl ∈ (l.foldl (buildStep c) st).1, (cl.items.length : ℤ) ≤ c.maxClusterSize := by
  intro l
  induction l with
  | nil => intro st hall; exact hall
  | cons x l ih =>
      intro st hall
      rw [List.foldl_cons]
      apply ih
      rw [buildStep]
      cases htry : tryAssign c x st.1 with
      | some cs => exact tryAssign_sizes htry hall
      | none =>
          intro cl hcl
          rcases List.mem_append.mp hcl with hmem | hmem
          · exact hall cl hmem
          · rcases List.mem_singleton.mp hmem with rfl
            simp only [newCluster, List.length_singleton]
            exact_mod_cast hmax

/-- C2: `HeuristicClusterer.BuildClusters` partitions its input — the
concatenation of the returned clusters' item lists is a permutation of
the input (every input item appears in exactly one cluster, with
multiplicity) — and every returned cluster holds at most `MaxClusterSize`
items.  The hypothesis `1 ≤ MaxClusterSize` holds for every clusterer the
repository constructs (`NewHeuristicClusterer` fixes it at 12). -/
theorem heuristic_partition (c : HeuristicClusterer) (items : List NewsItem)
    (hmax : 1 ≤ c.maxClusterSize) :
    (clustersItems (BuildClusters c items)).Perm items ∧
    ∀ cl ∈ BuildClusters c items, (cl.items.length : ℤ) ≤ c.maxClusterSize := by
  unfold BuildClusters
  by_cases hne : items = []
  · rw [if_pos hne]
    subst hne
    exact ⟨List.Perm.refl _, fun cl hcl => absurd hcl (List.not_mem_nil cl)⟩
  · rw [if_neg hne]
    constructor
    · have h := buildFold_join c (sortItems items) ([], 0)
      simp only [clustersItems, List.map_nil, List.flatten_nil, List.nil_append] at h
      exact h.trans (List.perm_insertionSort itemLE items)
    · exact buildFold_sizes c hmax (sortItems items) ([], 0)
        (fun cl hcl => absurd hcl (List.not_mem_nil cl))

/-- Witness for C2 at the default configuration and two concrete items. -/
theorem heuristic_partition_witness :
    1 ≤ (NewHeuristicClusterer 0 0).maxClusterSize ∧
    ((clustersItems (BuildClusters (NewHeuristicClusterer 0 0) [wItem, wItem2])).Perm
        [wItem, wItem2] ∧
      ∀ cl ∈ BuildClusters (NewHeuristicClusterer 0 0) [wItem, wItem2],
        (cl.items.length : ℤ) ≤ (NewHeuristicClusterer 0 0).maxClusterSize) :=
  ⟨by decide, heuristic_partition (NewHeuristicClusterer 0 0) [wItem, wItem2]
    (by decide)⟩

/-- C5: for every LLM-path failure — chat client error, response with
zero choices, content with no parseable JSON object, or zero resulting
clusters (exactly the error constructors `llmDerive` can produce) — with
a configured fallback, `BuildClusters` returns the fallback engine's
clusters and no error; an error is returned only when the fallback itself
fails, and then it wraps both causes. -/
theorem llm_failure_fallback (c : LLMClusterer) (items : List NewsItem)
    (f : List NewsItem → Option (List Choice))
    (fb : List NewsItem → Except LLMError (List Cluster))
    (hne : items ≠ []) (hc : c.client = some f) (hm : ¬ c.model = "")
    (hfb : c.fallback = some fb)
    (e : LLMError) (hfail : llmDerive c f items = .error e) :
    (∀ cs, fb items = .ok cs → BuildClustersLLM c items = .ok cs) ∧
    (∀ e2, fb items = .error e2 →
      BuildClustersLLM c items = .error (.fallbackFailed e2 e)) := by
  constructor
  · intro cs hok
    simp only [BuildClustersLLM, if_neg hne, hc, if_neg hm, hfail,
      buildWithFallback, hfb, hok]
  · intro e2 herr
    simp only [BuildClustersLLM, if_neg hne, hc, if_neg hm, hfail,
      buildWithFallback, hfb, herr]

/-- Witness for C5: an erroring chat client with a succeeding fallback. -/
theorem llm_failure_fallback_witness :
    ([pItem1] : List NewsItem) ≠ [] ∧ cFail.client = some failClient ∧
    ¬ cFail.model = "" ∧ cFail.fallback = some okFallback ∧
    llmDerive cFail failClient [pItem1] = .error .clientError ∧
    BuildClustersLLM cFail [pItem1] = .ok [⟨("fb"), [pItem1], pItem1, 0, 0, none⟩] :=
  ⟨by decide, rfl, by decide, rfl, rfl,
    (llm_failure_fallback cFail [pItem1] failClient okFallback (by decide) rfl
      (by decide) rfl .clientError rfl).1
      [⟨("fb"), [pItem1], pItem1, 0, 0, none⟩] rfl⟩

/-- C6 (amended): in every cluster the LLM response parser produces, the
primary is the declared `primary_news_id` when that is non-empty and
known; otherwise it is the FIRST member of the declared `news_ids` list
that resolves to a known item — not the earliest member by published
timestamp — and in both cases it may carry the `summary_en` backfill. -/
theorem llm_primary_choice (d : DeclaredCluster) (items : List NewsItem)
    (cl : Cluster) (h : reconcileOne d items = some cl) :
    ∃ p, declaredPrimary d items = some p ∧ cl.primary = backfillSummary d p := by
  simp only [reconcileOne] at h
  unfold declaredPrimary
  cases hci : d.newsIds.filterMap (itemByID items) with
  | nil => rw [hci] at h; cases h
  | cons first rest =>
      rw [hci] at h
      simp only at h
      refine ⟨_, rfl, ?_⟩
      have hcl := Option.some.inj h
      rw [← hcl]

/-- C6 (counterexample): with declared member order `[n2, n1]` and no
declared primary, the parser's primary is `n2` (the first declared
member), while the earliest member by timestamp is `n1`. -/
theorem llm_primary_counterexample :
    dWitness.primaryNewsId = ("") ∧
    (reconcileOne dWitness [pItem1, pItem2]).map (fun cl => cl.primary.id)
      = some ("n2") ∧
    (reconcileOne dWitness [pItem1, pItem2]).map
      (fun cl => ((sortItems cl.items).headD NewsItem.empty).id) = some ("n1") ∧
    ("n2" : String) ≠ ("n1") :=
  ⟨rfl, by decide, by decide, by decide⟩

/-- Witness for C6 at the concrete declared cluster. -/
theorem llm_primary_choice_witness :
    reconcileOne dWitness [pItem1, pItem2] = some clWitness ∧
    (∃ p, declaredPrimary dWitness [pItem1, pItem2] = some p ∧
      clWitness.primary = backfillSummary dWitness p) :=
  ⟨rfl, llm_primary_choice dWitness [pItem1, pItem2] clWitness rfl⟩

theorem cacheLookup_insert (st : CacheState) (sig : String) (cs : List Cluster)
    (exp t : Time) (ht : t < exp) :
    (cacheLookup (cacheInsert st sig cs exp) sig t).1 = some cs := by
  unfold cacheLookup cacheInsert
  simp only [List.filter_append, List.find?_append]
  have hleft : (((st.filter (fun e => !(e.1 == sig))).filter
      (fun e => decide (t < e.2.expiresAt))).find? (fun e => e.1 == sig)) = none := by
    rw [List.find?_eq_none]
    intro e he
    have h2 : e ∈ st.filter (fun e => !(e.1 == sig)) := List.mem_of_mem_filter he
    have h1 := List.of_mem_filter h2
    simp only [Bool.not_eq_true'] at h1
    simp [h1]
  rw [hleft]
  simp [ht]

/-- C3 (modelled from the spec; the cached clusterer is code of the
repository absent from src/ — its callers and tests set `CacheTTL`): two
successive `BuildClusters` calls with the same items and model, the
second within CacheTTL of the first successful LLM derivation, perform
exactly one upstream `ChatCompletion` call in total; the second call is
served from the signature cache and returns the same clusters. -/
theorem llm_cache_single_upstream (c : CachedLLMClusterer) (st0 : CacheState)
    (t0 t1 : Time) (items : List NewsItem)
    (f : List NewsItem → Option (List Choice))
    (hc : c.core.client = some f) (hm : ¬ c.core.model = "") (hne : items ≠ [])
    (hmiss : (cacheLookup st0
      (cacheSignature (sortItems (limitItems c.core items)) c.core.model) t0).1
        = none)
    (cs : List Cluster) (hderive : llmDerive c.core f items = .ok cs)
    (ht0 : t0 ≤ t1) (ht1 : t1 < t0 + c.cacheTTL) :
    (BuildClustersCached c st0 t0 items).upstreamCalls +
      (BuildClustersCached c (BuildClustersCached c st0 t0 items).cache t1
        items).upstreamCalls = 1 ∧
    (BuildClustersCached c st0 t0 items).result = .ok cs ∧
    (BuildClustersCached c (BuildClustersCached c st0 t0 items).cache t1
      items).result = .ok cs := by
  have hlk : cacheLookup st0
      (cacheSignature (sortItems (limitItems c.core items)) c.core.model) t0
      = (none, (cacheLookup st0
          (cacheSignature (sortItems (limitItems c.core items)) c.core.model) t0).2) := by
    rw [← hmiss]
  have h1 : BuildClustersCached c st0 t0 items
      = ⟨.ok cs, cacheInsert (cacheLookup st0
          (cacheSignature (sortItems (limitItems c.core items)) c.core.model) t0).2
          (cacheSignature (sortItems (limitItems c.core items)) c.core.model) cs
          (t0 + c.cacheTTL), 1⟩ := by
    simp only [BuildClustersCached, if_neg hne, hc, if_neg hm]
    rw [hlk, hderive]
  have hhit := cacheLookup_insert (cacheLookup st0
      (cacheSignature (sortItems (limitItems c.core items)) c.core.model) t0).2
    (cacheSignature (sortItems (limitItems c.core items)) c.core.model) cs
    (t0 + c.cacheTTL) t1 ht1
  have hlk2 : cacheLookup (cacheInsert (cacheLookup st0
      (cacheSignature (sortItems (limitItems c.core items)) c.core.model) t0).2
      (cacheSignature (sortItems (limitItems c.core items)) c.core.model) cs
      (t0 + c.cacheTTL))
      (cacheSignature (sortItems (limitItems c.core items)) c.core.model) t1
      = (some cs, (cacheLookup (cacheInsert (cacheLookup st0
          (cacheSignature (sortItems (limitItems c.core items)) c.core.model) t0).2
          (cacheSignature (sortItems (limitItems c.core items)) c.core.model) cs
          (t0 + c.cacheTTL))
          (cacheSignature (sortItems (limitItems c.core items)) c.core.model) t1).2) := by
    rw [← hhit]
  have h2 : BuildClustersCached c (BuildClustersCached c st0 t0 items).cache t1 items
      = ⟨.ok cs, (cacheLookup (cacheInsert (cacheLookup st0
          (cacheSignature (sortItems (limitItems c.core items)) c.core.model) t0).2
          (cacheSignature (sortItems (limitItems c.core items)) c.core.model) cs
          (t0 + c.cacheTTL))
          (cacheSignature (sortItems (limitItems c.core items)) c.core.model) t1).2,
        0⟩ := by
    rw [h1]
    simp only [BuildClustersCached, if_neg hne, hc, if_neg hm]
    rw [hlk2]
  rw [h2, h1]
  exact ⟨rfl, rfl, rfl⟩

/-- Witness for C3 at a concrete cached clusterer, client and item. -/
theorem llm_cache_single_upstream_witness :
    cCache.core.client = some okClient ∧ ¬ cCache.core.model = "" ∧
    ([pItem1] : List NewsItem) ≠ [] ∧
    (cacheLookup [] (cacheSignature (sortItems (limitItems cCache.core [pItem1]))
      cCache.core.model) 0).1 = none ∧
    llmDerive cCache.core okClient [pItem1] = .ok derivedW ∧
    (0 : Time) ≤ 30 ∧ (30 : Time) < 0 + cCache.cacheTTL ∧
    ((BuildClustersCached cCache [] 0 [pItem1]).upstreamCalls +
      (BuildClustersCached cCache (BuildClustersCached cCache [] 0 [pItem1]).cache
        30 [pItem1]).upstreamCalls = 1 ∧
      (BuildClustersCached cCache [] 0 [pItem1]).result = .ok derivedW ∧
      (BuildClustersCached cCache (BuildClustersCached cCache [] 0 [pItem1]).cache
        30 [pItem1]).result = .ok derivedW) :=
  ⟨rfl, by decide, by decide, rfl, rfl, by decide, by decide,
    llm_cache_single_upstream cCache [] 0 30 [pItem1] okClient rfl (by decide)
      (by decide) rfl derivedW rfl (by decide) (by decide)⟩

end Radar
